import Mathlib

-- Verification development for the viks_media JSON datastore (`src/store.js`).
-- The store is shallowly embedded: the backing snapshot is modelled as a typed
-- record of entity collections (JSON numbers restricted to integers, strings,
-- booleans and nullable fields restricted to `Option`), every store operation
-- is translated line by line into a pure function on that record, and JS
-- truthiness defaults (`x || y`) become the explicit combinators below.

namespace VM

-- `x || y` for a JS string value: "" is falsy.
def orS (a b : String) : String := if a = "" then b else a

-- `x || y` for a JS number value: 0 is falsy (integer-typed domain).
def orI (a b : Int) : Int := if a = 0 then b else a

-- `x ? toInt(x) : null` for a nullable JS number: null and 0 are falsy.
def orOI (a : Option Int) : Option Int :=
  match a with
  | none => none
  | some n => if n = 0 then none else some n

-- `x || null` for a nullable JS string: null and "" are falsy.
def orOS (a : Option String) : Option String :=
  match a with
  | none => none
  | some s => if s = "" then none else some s

-- `toInt` in store.js is `Number.isInteger(Number(v)) ? Number(v) : 0`; on the
-- integer-typed embedding domain it is the identity.
def toInt (v : Int) : Int := v

-- JS whitespace as used by `trim` / `\s` on the modelled (ASCII) domain.
def wsChar (c : Char) : Bool := c = ' ' || c = '\t' || c = '\n' || c = '\r'

-- `String.prototype.toLowerCase` on one character (ASCII range).
def lowerChar (c : Char) : Char :=
  if 65 ≤ c.toNat ∧ c.toNat ≤ 90 then Char.ofNat (c.toNat + 32) else c

def lowerList (l : List Char) : List Char := l.map lowerChar

-- leading- and trailing-whitespace removal (`String.prototype.trim`).
def trimList (l : List Char) : List Char :=
  (((l.dropWhile wsChar).reverse.dropWhile wsChar).reverse)

def jsTrim (s : String) : String := ⟨trimList s.data⟩

def jsToLower (s : String) : String := ⟨lowerList s.data⟩

-- `normalizeText(input) = String(input || "").toLowerCase().trim()`.
def normalizeText (s : String) : String := jsTrim (jsToLower s)

-- character class `[a-z0-9]` of the slugify regex.
def slugCh (c : Char) : Bool :=
  (97 ≤ c.toNat && c.toNat ≤ 122) || (48 ≤ c.toNat && c.toNat ≤ 57)

-- collapse every adjacent duplicate of `t` into one occurrence.
def squeeze (t : Char) : List Char → List Char
  | [] => []
  | [c] => [c]
  | a :: b :: r => if a = t ∧ b = t then squeeze t (b :: r) else a :: squeeze t (b :: r)

-- `.replace(/[^a-z0-9]+/g, "-")`: map every non-slug char to '-' and collapse runs.
def dashRuns (l : List Char) : List Char :=
  squeeze '-' (l.map (fun c => if slugCh c then c else '-'))

-- `.replace(/^-+|-+$/g, "")`.
def stripDashes (l : List Char) : List Char :=
  ((l.dropWhile (fun c => c = '-')).reverse.dropWhile (fun c => c = '-')).reverse

def slugify (input : String) : String :=
  ⟨stripDashes (dashRuns (trimList (lowerList input.data)))⟩

-- `padId(value) = String(Number(value) || 0).padStart(10, "0")`.
def padId (v : Int) : String :=
  let s := toString (orI v 0)
  ⟨List.replicate (10 - s.data.length) '0' ++ s.data⟩

-- strict lexicographic order on char lists; `localeCompare` on the modelled
-- (ASCII path) domain orders strings this way.
def lexLt : List Char → List Char → Bool
  | [], [] => false
  | [], _ :: _ => true
  | _ :: _, [] => false
  | a :: as, b :: bs => a < b || (a = b && lexLt as bs)

def pathLt (a b : String) : Bool := lexLt a.data b.data

-- Boolean list-is-a-leading-segment test (`String.prototype.startsWith`).
def listPre : List Char → List Char → Bool
  | [], _ => true
  | _ :: _, [] => false
  | a :: as, b :: bs => a = b && listPre as bs

-- `s.startsWith(p)`.
def strStarts (s p : String) : Bool := listPre p.data s.data

-- `Array.prototype.slice(b, e)` index resolution.
def jsSliceIdx (len : Nat) (x : Int) : Nat :=
  if x < 0 then len - (-x).toNat else min x.toNat len

def jsSlice {α : Type} (l : List α) (b e : Int) : List α :=
  let s := jsSliceIdx l.length b
  let t := jsSliceIdx l.length e
  (l.drop s).take (t - s)

-- `.map((x, index) => ...)` starting from a given index.
def mapIdxFrom {α β : Type} (f : Nat → α → β) : Nat → List α → List β
  | _, [] => []
  | i, x :: xs => f i x :: mapIdxFrom f (i + 1) xs

-- mutate-the-first-match helper: JS `find` returns a live reference which the
-- store then mutates in place.
def updateFirst {α : Type} (p : α → Bool) (f : α → α) : List α → List α
  | [] => []
  | x :: xs => if p x then f x :: xs else x :: updateFirst p f xs

-- ---------------------------------------------------------------------------
-- Constants of store.js
-- ---------------------------------------------------------------------------

def SCHEMA_VERSION : Int := 2
def MAX_PAGE_SIZE : Int := 30
def REACTIONS : List String := ["like", "heart", "fire", "clap"]
def ROLES : List String := ["user", "moderator", "admin"]
def USER_STATUS : List String := ["active", "suspended", "banned"]
def REPORT_STATUS : List String := ["open", "in_review", "resolved", "dismissed"]
def REPORT_TARGETS : List String := ["post", "comment", "user"]

def isRole (value : String) : Bool := ROLES.contains value
def isUserStatus (value : String) : Bool := USER_STATUS.contains value
def isReportStatus (value : String) : Bool := REPORT_STATUS.contains value
def isReportTarget (value : String) : Bool := REPORT_TARGETS.contains value
def isReaction (value : String) : Bool := REACTIONS.contains value

-- ---------------------------------------------------------------------------
-- Entity records (fields exactly as store.js reads and writes them)
-- ---------------------------------------------------------------------------

structure User where
  id : Int
  username : String
  email : String
  password_hash : String
  bio : String
  avatar_url : String
  created_at : String
  role : String
  status : String
  email_verified : Bool
  verification_token_hash : Option String
  verification_expires_at : Option String
  reset_token_hash : Option String
  reset_expires_at : Option String
  deriving DecidableEq, Repr

structure Category where
  id : Int
  name : String
  slug : String
  description : String
  sort_order : Int
  deriving DecidableEq, Repr

structure Post where
  id : Int
  user_id : Int
  category_id : Int
  title : String
  body : String
  markdown_body : String
  rendered_html : String
  excerpt : String
  reading_time_minutes : Int
  media_url : String
  media_type : String
  is_hidden : Bool
  hidden_reason : String
  created_at : String
  deriving DecidableEq, Repr

structure LikeRow where
  id : Int
  user_id : Int
  post_id : Int
  created_at : String
  deriving DecidableEq, Repr

structure CommentRow where
  id : Int
  user_id : Int
  post_id : Int
  parent_comment_id : Option Int
  depth : Int
  path : String
  body : String
  is_hidden : Bool
  hidden_reason : String
  created_at : String
  deriving DecidableEq, Repr

structure Tag where
  id : Int
  name : String
  slug : String
  created_at : String
  deriving DecidableEq, Repr

structure PostTag where
  post_id : Int
  tag_id : Int
  deriving DecidableEq, Repr

structure BookmarkRow where
  id : Int
  user_id : Int
  post_id : Int
  created_at : String
  deriving DecidableEq, Repr

structure CommentReaction where
  id : Int
  comment_id : Int
  user_id : Int
  reaction_type : String
  created_at : String
  deriving DecidableEq, Repr

structure Report where
  id : Int
  reporter_user_id : Int
  target_type : String
  target_id : Int
  reason_code : String
  reason_text : String
  status : String
  assigned_to_user_id : Option Int
  created_at : String
  resolved_at : Option String
  deriving DecidableEq, Repr

structure ModerationAction where
  id : Int
  actor_user_id : Int
  action_type : String
  target_type : String
  target_id : Int
  notes : String
  created_at : String
  deriving DecidableEq, Repr

structure Counters where
  users : Int
  categories : Int
  posts : Int
  likes : Int
  comments : Int
  tags : Int
  bookmarks : Int
  comment_reactions : Int
  reports : Int
  moderation_actions : Int
  deriving DecidableEq, Repr

structure St where
  schema_version : Int
  counters : Counters
  users : List User
  categories : List Category
  posts : List Post
  likes : List LikeRow
  comments : List CommentRow
  tags : List Tag
  post_tags : List PostTag
  bookmarks : List BookmarkRow
  comment_reactions : List CommentReaction
  reports : List Report
  moderation_actions : List ModerationAction
  search_index_meta : Option String
  deriving DecidableEq, Repr

-- `nextId(entity) = (toInt(counter) || 0) + 1`.
def nextIdVal (c : Int) : Int := orI (toInt c) 0 + 1

-- ---------------------------------------------------------------------------
-- summarize / computeReadingTime (used by the post migration)
-- ---------------------------------------------------------------------------

-- `text.replace(/\s+/g, " ").trim()`, then truncate to `maxLength` with "...".
def summarize (text : String) (maxLength : Int) : String :=
  if text = "" then ""
  else
    let cleaned : List Char :=
      trimList (squeeze ' ' (text.data.map (fun c => if wsChar c then ' ' else c)))
    if (cleaned.length : Int) ≤ maxLength then ⟨cleaned⟩
    else ⟨jsSlice cleaned 0 maxLength⟩ ++ "..."

-- the character class stripped by computeReadingTime (backtick is code 96).
def crtStrip (c : Char) : Bool :=
  c.toNat = 96 || c = '*' || c = '_' || c = '#' || c = '>' || c = '-' ||
    c = '[' || c = ']' || c = '(' || c = ')' || c = '!'

-- number of maximal non-whitespace runs (`split(/\s+/).filter(Boolean).length`).
def wordsAux (inWord : Bool) : List Char → Nat
  | [] => 0
  | c :: cs =>
    if wsChar c then wordsAux false cs
    else if inWord then wordsAux true cs
    else 1 + wordsAux true cs

-- `Math.max(1, Math.ceil(words / 200))`.
def computeReadingTime (markdownBody : String) : Int :=
  let words : Nat :=
    wordsAux false (markdownBody.data.map (fun c => if crtStrip c then ' ' else c))
  ((max 1 ((words + 199) / 200) : Nat) : Int)

-- ---------------------------------------------------------------------------
-- Schema Migrator (migrateState), one function per collection
-- ---------------------------------------------------------------------------

-- all `x || nowIso()` defaults of one run are modelled with a single `now`.
def migrateUser (now : String) (user : User) : User :=
  { id := toInt user.id
    username := jsTrim (orS user.username "")
    email := normalizeText (orS user.email "")
    password_hash := orS user.password_hash ""
    bio := orS user.bio ""
    avatar_url := orS user.avatar_url ""
    created_at := orS user.created_at now
    role := if isRole user.role then user.role else "user"
    status := if isUserStatus user.status then user.status else "active"
    -- `typeof email_verified !== "boolean"` never fires on the typed domain
    email_verified := user.email_verified
    verification_token_hash := orOS user.verification_token_hash
    verification_expires_at := orOS user.verification_expires_at
    reset_token_hash := orOS user.reset_token_hash
    reset_expires_at := orOS user.reset_expires_at }

-- the bootstrap-admin backfill only rewrites the user at index 0.
def migrateUsers (now : String) (users : List User) : List User :=
  let hasAdmin := users.any (fun u => u.role == "admin")
  match users with
  | [] => []
  | u0 :: rest =>
    (if hasAdmin then migrateUser now u0 else { migrateUser now u0 with role := "admin" })
      :: rest.map (migrateUser now)

def migrateCategory (index : Nat) (category : Category) : Category :=
  { id := toInt category.id
    name := orS category.name ("Category " ++ toString (index + 1))
    slug := slugify (orS category.slug (orS category.name ("category-" ++ toString (index + 1))))
    description := orS category.description ""
    sort_order := orI category.sort_order ((index : Int) + 1) }

def dedupeCatGo (seen : List String) : List Category → List Category
  | [] => []
  | c :: cs =>
    if c.slug = "" ∨ seen.contains c.slug then dedupeCatGo seen cs
    else c :: dedupeCatGo (c.slug :: seen) cs

def migrateCategories (categories : List Category) : List Category :=
  dedupeCatGo [] (mapIdxFrom migrateCategory 0 categories)

def migratePost (now : String) (post : Post) : Post :=
  let oldBody := orS post.body ""
  let markdown := orS post.markdown_body (orS oldBody "")
  { id := toInt post.id
    user_id := toInt post.user_id
    category_id := toInt post.category_id
    title := jsTrim (orS post.title "")
    body := post.body
    markdown_body := markdown
    rendered_html := orS post.rendered_html ""
    excerpt := orS post.excerpt (summarize markdown 220)
    reading_time_minutes := orI post.reading_time_minutes (computeReadingTime markdown)
    media_url := orS post.media_url ""
    media_type := if (["none", "image", "video"] : List String).contains post.media_type
      then post.media_type else "none"
    is_hidden := post.is_hidden
    hidden_reason := orS post.hidden_reason ""
    created_at := orS post.created_at now }

def migrateLike (now : String) (like : LikeRow) : LikeRow :=
  { id := toInt like.id
    user_id := toInt like.user_id
    post_id := toInt like.post_id
    created_at := orS like.created_at now }

def migrateLikes (now : String) (likes : List LikeRow) : List LikeRow :=
  (likes.map (migrateLike now)).filter
    (fun like => like.id > 0 && like.user_id > 0 && like.post_id > 0)

-- first comment pass: field coercion (loop one of migrateState).
def migrateCommentA (now : String) (comment : CommentRow) : CommentRow :=
  { id := toInt comment.id
    user_id := toInt comment.user_id
    post_id := toInt comment.post_id
    parent_comment_id := orOI comment.parent_comment_id
    -- `Number.isInteger(depth)` always holds on the integer-typed domain
    depth := comment.depth
    path := orS comment.path ""
    body := orS comment.body ""
    is_hidden := comment.is_hidden
    hidden_reason := orS comment.hidden_reason ""
    created_at := orS comment.created_at now }

-- second comment pass: dangling-parent repair and missing-path backfill
-- (loop two of migrateState); `seen` is the id set collected by pass one.
def migrateCommentB (seen : List Int) (comment : CommentRow) : CommentRow :=
  let c1 :=
    match comment.parent_comment_id with
    | some pid =>
      if pid ≠ 0 ∧ ¬ seen.contains pid then
        { comment with parent_comment_id := none, depth := 0 }
      else comment
    | none => comment
  if c1.path = "" then
    { c1 with path :=
        match c1.parent_comment_id with
        | some pid =>
          if pid ≠ 0 then padId pid ++ "." ++ padId c1.id else padId c1.id
        | none => padId c1.id }
  else c1

def migrateComments (now : String) (comments : List CommentRow) : List CommentRow :=
  let step1 := comments.map (migrateCommentA now)
  let seen := step1.map (fun c => c.id)
  step1.map (migrateCommentB seen)

def migrateTag (now : String) (tag : Tag) : Tag :=
  let name := jsTrim (orS tag.name "")
  let slug := slugify (orS tag.slug name)
  { id := toInt tag.id
    name := orS name slug
    slug := slug
    created_at := orS tag.created_at now }

def dedupeTagGo (seen : List String) : List Tag → List Tag
  | [] => []
  | t :: ts =>
    if t.id = 0 ∨ t.slug = "" ∨ seen.contains t.slug then dedupeTagGo seen ts
    else t :: dedupeTagGo (t.slug :: seen) ts

def migrateTags (now : String) (tags : List Tag) : List Tag :=
  dedupeTagGo [] (tags.map (migrateTag now))

def migratePostTags (post_tags : List PostTag) : List PostTag :=
  (post_tags.map (fun relation =>
      ({ post_id := toInt relation.post_id, tag_id := toInt relation.tag_id } : PostTag))).filter
    (fun relation => relation.post_id > 0 && relation.tag_id > 0)

def migrateBookmark (now : String) (bookmark : BookmarkRow) : BookmarkRow :=
  { id := toInt bookmark.id
    user_id := toInt bookmark.user_id
    post_id := toInt bookmark.post_id
    created_at := orS bookmark.created_at now }

def migrateBookmarks (now : String) (bookmarks : List BookmarkRow) : List BookmarkRow :=
  (bookmarks.map (migrateBookmark now)).filter
    (fun bookmark => bookmark.id > 0 && bookmark.user_id > 0 && bookmark.post_id > 0)

def migrateReaction (now : String) (reaction : CommentReaction) : CommentReaction :=
  { id := toInt reaction.id
    comment_id := toInt reaction.comment_id
    user_id := toInt reaction.user_id
    reaction_type := if isReaction reaction.reaction_type then reaction.reaction_type else "like"
    created_at := orS reaction.created_at now }

def migrateReactions (now : String) (reactions : List CommentReaction) : List CommentReaction :=
  (reactions.map (migrateReaction now)).filter
    (fun reaction => reaction.id > 0 && reaction.comment_id > 0 && reaction.user_id > 0)

def migrateReport (now : String) (report : Report) : Report :=
  { id := toInt report.id
    reporter_user_id := toInt report.reporter_user_id
    target_type := if isReportTarget report.target_type then report.target_type else "post"
    target_id := toInt report.target_id
    reason_code := orS report.reason_code "other"
    reason_text := orS report.reason_text ""
    status := if isReportStatus report.status then report.status else "open"
    assigned_to_user_id := orOI report.assigned_to_user_id
    created_at := orS report.created_at now
    resolved_at := orOS report.resolved_at }

def migrateReports (now : String) (reports : List Report) : List Report :=
  (reports.map (migrateReport now)).filter
    (fun report => report.id > 0 && report.reporter_user_id > 0 && report.target_id > 0)

def migrateAction (now : String) (action : ModerationAction) : ModerationAction :=
  { id := toInt action.id
    actor_user_id := toInt action.actor_user_id
    action_type := orS action.action_type "unknown"
    target_type := orS action.target_type "unknown"
    target_id := toInt action.target_id
    notes := orS action.notes ""
    created_at := orS action.created_at now }

def migrateActions (now : String) (actions : List ModerationAction) : List ModerationAction :=
  (actions.map (migrateAction now)).filter
    (fun action => action.id > 0 && action.actor_user_id > 0 && action.target_id > 0)

def migrateState (now : String) (s : St) : St :=
  { s with
      users := migrateUsers now s.users
      categories := migrateCategories s.categories
      posts := s.posts.map (migratePost now)
      likes := migrateLikes now s.likes
      comments := migrateComments now s.comments
      tags := migrateTags now s.tags
      post_tags := migratePostTags s.post_tags
      bookmarks := migrateBookmarks now s.bookmarks
      comment_reactions := migrateReactions now s.comment_reactions
      reports := migrateReports now s.reports
      moderation_actions := migrateActions now s.moderation_actions
      schema_version := SCHEMA_VERSION
      search_index_meta := orOS s.search_index_meta }

-- ---------------------------------------------------------------------------
-- Roles and the hidden-content visibility predicate
-- ---------------------------------------------------------------------------

def isModeratorRole (role : String) : Bool := role == "moderator" || role == "admin"

def isAdminRole (role : String) : Bool := role == "admin"

-- the viewer object handed to the read queries (a public-user projection or
-- null for anonymous readers); only `id` and `role` are consulted.
structure Viewer where
  id : Int
  role : String
  deriving DecidableEq, Repr

def canViewHidden (viewer : Option Viewer) (authorId : Int) : Bool :=
  match viewer with
  | none => false
  | some v => if v.id = authorId then true else isModeratorRole v.role

-- ---------------------------------------------------------------------------
-- Comment Tree Manager
-- ---------------------------------------------------------------------------

def getCommentRawById (s : St) (commentId : Int) : Option CommentRow :=
  s.comments.find? (fun c => c.id == toInt commentId)

def buildCommentPath (parent : Option CommentRow) (newCommentId : Int) : String :=
  match parent with
  | none => padId newCommentId
  | some p => p.path ++ "." ++ padId newCommentId

-- `addComment({user_id, post_id, body, parent_comment_id = null})`; `now` is
-- the `nowIso()` timestamp of the call.
def addComment (s : St) (user_id post_id : Int) (body : String)
    (parent_comment_id : Option Int) (now : String) : Option CommentRow × St :=
  let parent : Option CommentRow :=
    match orOI parent_comment_id with
    | some pid => getCommentRawById s pid
    | none => none
  match parent with
  | some p =>
    if p.post_id ≠ toInt post_id then (none, s)
    else
      let id := nextIdVal s.counters.comments
      let comment : CommentRow :=
        { id := id
          user_id := toInt user_id
          post_id := toInt post_id
          parent_comment_id := some p.id
          depth := orI p.depth 0 + 1
          path := buildCommentPath (some p) id
          body := orS body ""
          is_hidden := false
          hidden_reason := ""
          created_at := now }
      (some comment,
        { s with comments := s.comments ++ [comment]
                 counters := { s.counters with comments := id } })
  | none =>
    let id := nextIdVal s.counters.comments
    let comment : CommentRow :=
      { id := id
        user_id := toInt user_id
        post_id := toInt post_id
        parent_comment_id := none
        depth := 0
        path := buildCommentPath none id
        body := orS body ""
        is_hidden := false
        hidden_reason := ""
        created_at := now }
    (some comment,
      { s with comments := s.comments ++ [comment]
               counters := { s.counters with comments := id } })

def hideComment (s : St) (commentId : Int) (reason : String) : Option CommentRow × St :=
  match getCommentRawById s commentId with
  | none => (none, s)
  | some c =>
    (some { c with is_hidden := true, hidden_reason := orS reason "" },
      { s with
          comments :=
            updateFirst (fun x => x.id == toInt commentId)
              (fun x => { x with is_hidden := true, hidden_reason := orS reason "" })
              s.comments })

def unhideComment (s : St) (commentId : Int) : Option CommentRow × St :=
  match getCommentRawById s commentId with
  | none => (none, s)
  | some c =>
    (some { c with is_hidden := false, hidden_reason := "" },
      { s with
          comments :=
            updateFirst (fun x => x.id == toInt commentId)
              (fun x => { x with is_hidden := false, hidden_reason := "" })
              s.comments })

-- ---------------------------------------------------------------------------
-- Like / bookmark / reaction toggles
-- ---------------------------------------------------------------------------

def toggleLike (s : St) (userId postId : Int) (now : String) : Bool × St :=
  match s.likes.find?
      (fun l => l.user_id == toInt userId && l.post_id == toInt postId) with
  | some existing =>
    (false, { s with likes := s.likes.filter (fun l => !(l.id == existing.id)) })
  | none =>
    let id := nextIdVal s.counters.likes
    (true,
      { s with likes := s.likes ++
          [{ id := id, user_id := toInt userId, post_id := toInt postId, created_at := now }],
               counters := { s.counters with likes := id } })

def toggleBookmark (s : St) (userId postId : Int) (now : String) : Bool × St :=
  match s.bookmarks.find?
      (fun b => b.user_id == toInt userId && b.post_id == toInt postId) with
  | some existing =>
    (false, { s with bookmarks := s.bookmarks.filter (fun b => !(b.id == existing.id)) })
  | none =>
    let id := nextIdVal s.counters.bookmarks
    (true,
      { s with bookmarks := s.bookmarks ++
          [{ id := id, user_id := toInt userId, post_id := toInt postId, created_at := now }],
               counters := { s.counters with bookmarks := id } })

def toggleCommentReaction (s : St) (userId commentId : Int) (reactionType : String)
    (now : String) : Option Bool × St :=
  if !isReaction reactionType then (none, s)
  else
    match s.comment_reactions.find?
        (fun item => item.comment_id == toInt commentId &&
          item.user_id == toInt userId && item.reaction_type == reactionType) with
    | some existing =>
      (some false,
        { s with comment_reactions :=
            s.comment_reactions.filter (fun item => !(item.id == existing.id)) })
    | none =>
      let id := nextIdVal s.counters.comment_reactions
      (some true,
        { s with comment_reactions := s.comment_reactions ++
            [{ id := id, comment_id := toInt commentId, user_id := toInt userId,
               reaction_type := reactionType, created_at := now }],
                 counters := { s.counters with comment_reactions := id } })

-- ---------------------------------------------------------------------------
-- Reports
-- ---------------------------------------------------------------------------

def getReportById (s : St) (id : Int) : Option Report :=
  s.reports.find? (fun r => r.id == toInt id)

-- the in-place mutation assignReport performs on the found report object.
def assignUpd (moderatorId : Int) (r : Report) : Report :=
  let r1 := { r with assigned_to_user_id := some (toInt moderatorId) }
  if r1.status = "open" then { r1 with status := "in_review" } else r1

def assignReport (s : St) (reportId moderatorId : Int) : Option Report × St :=
  match getReportById s reportId with
  | none => (none, s)
  | some _ =>
    let s' := { s with
      reports :=
        updateFirst (fun r => r.id == toInt reportId) (assignUpd moderatorId) s.reports }
    (getReportById s' reportId, s')

-- the in-place mutation resolveReport performs on the found report object.
def resolveUpd (status now : String) (r : Report) : Report :=
  { r with status := status, resolved_at := some now }

def resolveReport (s : St) (reportId : Int) (status : String) (now : String) :
    Option Report × St :=
  match getReportById s reportId with
  | none => (none, s)
  | some _ =>
    if !((["resolved", "dismissed"] : List String).contains status) then (none, s)
    else
      let s' := { s with
        reports :=
          updateFirst (fun r => r.id == toInt reportId) (resolveUpd status now) s.reports }
      (getReportById s' reportId, s')

-- a sequence of moderation calls against the report store.
inductive ModOp where
  | assign (reportId moderatorId : Int)
  | resolve (reportId : Int) (status : String) (now : String)
  deriving DecidableEq, Repr

def applyModOp (s : St) : ModOp → St
  | .assign rid mid => (assignReport s rid mid).2
  | .resolve rid st now => (resolveReport s rid st now).2

def applyModOps (s : St) (ops : List ModOp) : St := ops.foldl applyModOp s

-- ---------------------------------------------------------------------------
-- Visible comments (materialized-path ordering with hidden-subtree pruning)
-- ---------------------------------------------------------------------------

-- sort comparator: `a.path === b.path ? Date(a.created_at) - Date(b.created_at)
-- : a.path.localeCompare(b.path)`; ISO timestamps compare like their epoch
-- values under the lexicographic string order.
def commentLeB (a b : CommentRow) : Bool :=
  if a.path = b.path then decide (a.created_at ≤ b.created_at)
  else pathLt a.path b.path

def visScan (viewer : Option Viewer) : List CommentRow → List String → List CommentRow
  | [], _ => []
  | c :: rest, hiddenPrefixes =>
    if hiddenPrefixes.any (fun pre => strStarts c.path pre) then
      visScan viewer rest hiddenPrefixes
    else if c.is_hidden && !(canViewHidden viewer c.user_id) then
      visScan viewer rest (hiddenPrefixes ++ [c.path ++ "."])
    else
      c :: visScan viewer rest hiddenPrefixes

def getVisibleCommentsForPost (s : St) (postId : Int) (viewer : Option Viewer) :
    List CommentRow :=
  let comments :=
    List.insertionSort (fun a b => commentLeB a b = true)
      (s.comments.filter (fun c => c.post_id == toInt postId))
  visScan viewer comments []

-- ---------------------------------------------------------------------------
-- Trending leaderboard
-- ---------------------------------------------------------------------------

def getUserById (s : St) (id : Int) : Option User :=
  s.users.find? (fun u => u.id == toInt id)

def countLikes (s : St) (postId : Int) : Nat :=
  (s.likes.filter (fun l => l.post_id == toInt postId)).length

structure TrendingRow where
  id : Int
  title : String
  author_username : String
  like_count : Int
  created_at : String
  deriving DecidableEq, Repr

structure TrendingItem where
  id : Int
  title : String
  author_username : String
  like_count : Int
  deriving DecidableEq, Repr

def trendingRowOf (s : St) (p : Post) : TrendingRow :=
  { id := p.id
    title := p.title
    author_username := match getUserById s p.user_id with
      | some a => a.username
      | none => "deleted"
    like_count := (countLikes s p.id : Int)
    created_at := p.created_at }

-- sort comparator: like_count descending, created_at descending on ties.
def trendLeB (a b : TrendingRow) : Bool :=
  if b.like_count = a.like_count then decide (b.created_at ≤ a.created_at)
  else decide (b.like_count ≤ a.like_count)

def getTrendingPosts (s : St) (limit : Int) : List TrendingItem :=
  let rows := (s.posts.filter (fun p => !p.is_hidden)).map (trendingRowOf s)
  let sorted := List.insertionSort (fun a b => trendLeB a b = true) rows
  (jsSlice sorted 0 limit).map (fun r =>
    { id := r.id, title := r.title, author_username := r.author_username,
      like_count := r.like_count })

-- ---------------------------------------------------------------------------
-- paginate (Feed Query Engine)
-- ---------------------------------------------------------------------------

structure Paginated (α : Type) where
  items : List α
  total : Nat
  pages : Nat
  page : Int
  pageSize : Int

-- `Math.ceil(total / size)` for `total ≥ 0`, `size ≥ 1` is `(total+size-1)/size`.
def paginate {α : Type} (items : List α) (page pageSize : Int) : Paginated α :=
  let size : Int := min (max (orI pageSize 10) 1) MAX_PAGE_SIZE
  let total : Nat := items.length
  let pages : Nat := max 1 ((total + size.toNat - 1) / size.toNat)
  let safePage : Int := min (max (orI page 1) 1) (pages : Int)
  let start : Int := (safePage - 1) * size
  { items := jsSlice items start (start + size)
    total := total
    pages := pages
    page := safePage
    pageSize := size }

/-- C5: for every list of items and all integer `page` and `pageSize` inputs
(including negative, zero and huge values), `paginate` uses an effective page
size clamped into [1, 30] and an effective page clamped into
[1, max(1, ceil(total/pageSize))], and its result satisfies
`0 ≤ items.length ≤ pageSize` and `1 ≤ returned page ≤ pages`. -/
theorem paginate_bounds {α : Type} (items : List α) (page pageSize : Int) :
    1 ≤ (paginate items page pageSize).pageSize ∧
    (paginate items page pageSize).pageSize ≤ 30 ∧
    1 ≤ (paginate items page pageSize).page ∧
    (paginate items page pageSize).page ≤ ((paginate items page pageSize).pages : Int) ∧
    ((paginate items page pageSize).items.length : Int) ≤ (paginate items page pageSize).pageSize ∧
    (paginate items page pageSize).pages =
      max 1 ((items.length + (paginate items page pageSize).pageSize.toNat - 1) /
        (paginate items page pageSize).pageSize.toNat) ∧
    (paginate items page pageSize).page =
      min (max (orI page 1) 1) (((paginate items page pageSize).pages : Int)) := by
  simp only [paginate, jsSlice, jsSliceIdx, MAX_PAGE_SIZE]
  set size : Int := min (max (orI pageSize 10) 1) 30 with hsize
  have h1 : 1 ≤ size := by
    simp only [hsize, orI]
    split <;> omega
  have h30 : size ≤ 30 := by simp only [hsize]; omega
  set pages : Nat := max 1 ((items.length + size.toNat - 1) / size.toNat) with hpages
  have hp1 : 1 ≤ pages := by omega
  set safePage : Int := min (max (orI page 1) 1) (pages : Int) with hsafe
  have hsp1 : 1 ≤ safePage := by
    simp only [hsafe]
    omega
  have hsppages : safePage ≤ (pages : Int) := by
    simp only [hsafe]; omega
  refine ⟨h1, h30, hsp1, hsppages, ?_, trivial, trivial⟩
  -- length of the slice is at most the effective page size
  have hstart : 0 ≤ (safePage - 1) * size := mul_nonneg (by omega) (by omega)
  have hlen : ∀ (s t : Nat), ((items.drop s).take (t - s)).length ≤ t - s := by
    intro s t
    simp [List.length_take]
  have hb : ¬ ((safePage - 1) * size < 0) := by omega
  have he : ¬ ((safePage - 1) * size + size < 0) := by omega
  rw [if_neg hb, if_neg he]
  have hmono :
      min ((safePage - 1) * size + size).toNat items.length -
        min ((safePage - 1) * size).toNat items.length ≤ size.toNat := by
    omega
  calc (((items.drop (min ((safePage - 1) * size).toNat items.length)).take
        (min ((safePage - 1) * size + size).toNat items.length -
          min ((safePage - 1) * size).toNat items.length)).length : Int)
      ≤ ((min ((safePage - 1) * size + size).toNat items.length -
          min ((safePage - 1) * size).toNat items.length : Nat) : Int) := by
        exact_mod_cast hlen _ _
    _ ≤ (size.toNat : Int) := by exact_mod_cast hmono
    _ = size := by omega


-- ---------------------------------------------------------------------------
-- Generic list lemmas
-- ---------------------------------------------------------------------------

theorem updateFirst_length {α : Type} (p : α → Bool) (f : α → α) (l : List α) :
    (updateFirst p f l).length = l.length := by
  induction l with
  | nil => rfl
  | cons x xs ih =>
    simp only [updateFirst]
    split <;> simp [ih]

theorem updateFirst_get? {α : Type} (p : α → Bool) (f : α → α) (l : List α) :
    ∀ (i : Nat) (c0 : α), l.get? i = some c0 →
      (updateFirst p f l).get? i = some c0 ∨
        (p c0 = true ∧ (updateFirst p f l).get? i = some (f c0)) := by
  induction l with
  | nil => intro i c0 h; simp at h
  | cons x xs ih =>
    intro i c0 h
    by_cases hp : p x
    · cases i with
      | zero =>
        have hx : x = c0 := by simpa using h
        subst hx
        exact Or.inr ⟨hp, by simp [updateFirst, hp]⟩
      | succ n =>
        have hx : xs.get? n = some c0 := by simpa using h
        exact Or.inl (by simpa [updateFirst, hp] using hx)
    · cases i with
      | zero =>
        have hx : x = c0 := by simpa using h
        subst hx
        exact Or.inl (by simp [updateFirst, hp])
      | succ n =>
        have hx : xs.get? n = some c0 := by simpa using h
        rcases ih n c0 hx with h1 | ⟨h2, h3⟩
        · exact Or.inl (by simpa [updateFirst, hp] using h1)
        · exact Or.inr ⟨h2, by simpa [updateFirst, hp] using h3⟩

theorem found_filter_eq {α : Type} (m : α → Bool) {l : List α} {e : α}
    (he : l.find? m = some e) (h1 : (l.filter m).length ≤ 1) :
    l.filter m = [e] := by
  have hmem : e ∈ l := List.mem_of_find?_eq_some he
  have hme : m e = true := List.find?_some he
  have hef : e ∈ l.filter m := List.mem_filter.mpr ⟨hmem, hme⟩
  cases hf : l.filter m with
  | nil => rw [hf] at hef; cases hef
  | cons a t =>
    cases t with
    | nil =>
      rw [hf] at hef
      have hea : e = a := by simpa using hef
      rw [hea]
    | cons b t2 => rw [hf] at h1; simp at h1

theorem filter_sub_nil {α : Type} (q : α → Bool) {m : α → Bool} {l : List α} {e : α}
    (hfm : l.filter m = [e]) (hqe : q e = false) :
    (l.filter q).filter m = [] := by
  rw [List.filter_comm, hfm]
  simp [hqe]

theorem fresh_filter_eq {α : Type} {m : α → Bool} {l : List α} (fresh : α)
    (hn : l.find? m = none) (hm : m fresh = true) :
    (l ++ [fresh]).filter m = [fresh] := by
  rw [List.filter_append]
  have h0 : l.filter m = [] := List.filter_eq_nil_iff.mpr (List.find?_eq_none.mp hn)
  simp [h0, hm]

-- ---------------------------------------------------------------------------
-- Toggle lemmas (C8)
-- ---------------------------------------------------------------------------

theorem toggleLike_count (s : St) (u p : Int) (now : String)
    (h : (s.likes.filter (fun l => l.user_id == toInt u && l.post_id == toInt p)).length ≤ 1) :
    ((toggleLike s u p now).2.likes.filter
        (fun l => l.user_id == toInt u && l.post_id == toInt p)).length =
      1 - (s.likes.filter (fun l => l.user_id == toInt u && l.post_id == toInt p)).length := by
  simp only [toggleLike]
  cases hf : s.likes.find? (fun l => l.user_id == toInt u && l.post_id == toInt p) with
  | some e =>
    have h1 := found_filter_eq _ hf h
    have h0 := filter_sub_nil (fun x => !(x.id == e.id)) h1 (by simp)
    simp [h0, h1]
  | none =>
    have h0 : s.likes.filter (fun l => l.user_id == toInt u && l.post_id == toInt p) = [] :=
      List.filter_eq_nil_iff.mpr (List.find?_eq_none.mp hf)
    have h2 := fresh_filter_eq
      ({ id := nextIdVal s.counters.likes, user_id := toInt u, post_id := toInt p,
         created_at := now } : LikeRow) hf (by simp)
    simp [h2, h0]

theorem toggleBookmark_count (s : St) (u p : Int) (now : String)
    (h : (s.bookmarks.filter (fun b => b.user_id == toInt u && b.post_id == toInt p)).length ≤ 1) :
    ((toggleBookmark s u p now).2.bookmarks.filter
        (fun b => b.user_id == toInt u && b.post_id == toInt p)).length =
      1 - (s.bookmarks.filter (fun b => b.user_id == toInt u && b.post_id == toInt p)).length := by
  simp only [toggleBookmark]
  cases hf : s.bookmarks.find? (fun b => b.user_id == toInt u && b.post_id == toInt p) with
  | some e =>
    have h1 := found_filter_eq _ hf h
    have h0 := filter_sub_nil (fun x => !(x.id == e.id)) h1 (by simp)
    simp [h0, h1]
  | none =>
    have h0 : s.bookmarks.filter (fun b => b.user_id == toInt u && b.post_id == toInt p) = [] :=
      List.filter_eq_nil_iff.mpr (List.find?_eq_none.mp hf)
    have h2 := fresh_filter_eq
      ({ id := nextIdVal s.counters.bookmarks, user_id := toInt u, post_id := toInt p,
         created_at := now } : BookmarkRow) hf (by simp)
    simp [h2, h0]

theorem toggleReaction_count (s : St) (u cid : Int) (rt now : String)
    (h : (s.comment_reactions.filter (fun item => item.comment_id == toInt cid &&
        item.user_id == toInt u && item.reaction_type == rt)).length ≤ 1) :
    ((toggleCommentReaction s u cid rt now).2.comment_reactions.filter
        (fun item => item.comment_id == toInt cid &&
          item.user_id == toInt u && item.reaction_type == rt)).length =
      if isReaction rt then
        1 - (s.comment_reactions.filter (fun item => item.comment_id == toInt cid &&
          item.user_id == toInt u && item.reaction_type == rt)).length
      else (s.comment_reactions.filter (fun item => item.comment_id == toInt cid &&
        item.user_id == toInt u && item.reaction_type == rt)).length := by
  simp only [toggleCommentReaction]
  by_cases hv : isReaction rt
  · simp only [hv, Bool.not_true, if_true, Bool.false_eq_true, if_false]
    cases hf : s.comment_reactions.find? (fun item => item.comment_id == toInt cid &&
        item.user_id == toInt u && item.reaction_type == rt) with
    | some e =>
      have h1 := found_filter_eq _ hf h
      have h0 := filter_sub_nil (fun x => !(x.id == e.id)) h1 (by simp)
      simp [h0, h1]
    | none =>
      have h0 : s.comment_reactions.filter (fun item => item.comment_id == toInt cid &&
          item.user_id == toInt u && item.reaction_type == rt) = [] :=
        List.filter_eq_nil_iff.mpr (List.find?_eq_none.mp hf)
      have h2 := fresh_filter_eq
        ({ id := nextIdVal s.counters.comment_reactions, comment_id := toInt cid,
           user_id := toInt u, reaction_type := rt, created_at := now } : CommentReaction) hf
        (by simp)
      simp [h2, h0]
  · simp [hv]

/-- C8: for every user and target (over any state whose matching-row count
already respects the at-most-one-active-row invariant of the data model),
toggling the same like / bookmark / comment reaction twice in succession
restores the original count of matching rows, and the intermediate state never
holds more than one matching row. -/
theorem c8_toggle_twice_restores (s : St) (u p cid : Int) (rt now1 now2 : String)
    (hL : (s.likes.filter (fun l => l.user_id == toInt u && l.post_id == toInt p)).length ≤ 1)
    (hB : (s.bookmarks.filter (fun b => b.user_id == toInt u && b.post_id == toInt p)).length ≤ 1)
    (hR : (s.comment_reactions.filter (fun item => item.comment_id == toInt cid &&
        item.user_id == toInt u && item.reaction_type == rt)).length ≤ 1) :
    (((toggleLike (toggleLike s u p now1).2 u p now2).2.likes.filter
        (fun l => l.user_id == toInt u && l.post_id == toInt p)).length =
      (s.likes.filter (fun l => l.user_id == toInt u && l.post_id == toInt p)).length ∧
      ((toggleLike s u p now1).2.likes.filter
        (fun l => l.user_id == toInt u && l.post_id == toInt p)).length ≤ 1) ∧
    (((toggleBookmark (toggleBookmark s u p now1).2 u p now2).2.bookmarks.filter
        (fun b => b.user_id == toInt u && b.post_id == toInt p)).length =
      (s.bookmarks.filter (fun b => b.user_id == toInt u && b.post_id == toInt p)).length ∧
      ((toggleBookmark s u p now1).2.bookmarks.filter
        (fun b => b.user_id == toInt u && b.post_id == toInt p)).length ≤ 1) ∧
    (((toggleCommentReaction (toggleCommentReaction s u cid rt now1).2 u cid rt now2).2.comment_reactions.filter
        (fun item => item.comment_id == toInt cid &&
          item.user_id == toInt u && item.reaction_type == rt)).length =
      (s.comment_reactions.filter (fun item => item.comment_id == toInt cid &&
        item.user_id == toInt u && item.reaction_type == rt)).length ∧
      ((toggleCommentReaction s u cid rt now1).2.comment_reactions.filter
        (fun item => item.comment_id == toInt cid &&
          item.user_id == toInt u && item.reaction_type == rt)).length ≤ 1) := by
  refine ⟨?_, ?_, ?_⟩
  · have a1 := toggleLike_count s u p now1 hL
    have a2 := toggleLike_count (toggleLike s u p now1).2 u p now2 (by omega)
    omega
  · have a1 := toggleBookmark_count s u p now1 hB
    have a2 := toggleBookmark_count (toggleBookmark s u p now1).2 u p now2 (by omega)
    omega
  · have a1 := toggleReaction_count s u cid rt now1 hR
    by_cases hv : isReaction rt
    · rw [if_pos hv] at a1
      have a2 := toggleReaction_count (toggleCommentReaction s u cid rt now1).2 u cid rt now2
        (by omega)
      rw [if_pos hv] at a2
      omega
    · rw [if_neg hv] at a1
      have a2 := toggleReaction_count (toggleCommentReaction s u cid rt now1).2 u cid rt now2
        (by omega)
      rw [if_neg hv] at a2
      omega

-- ---------------------------------------------------------------------------
-- Hide/unhide frame lemmas (C9)
-- ---------------------------------------------------------------------------

-- every collection of the state other than `comments` is untouched.
def sameExceptComments (s s' : St) : Prop :=
  s'.schema_version = s.schema_version ∧ s'.counters = s.counters ∧ s'.users = s.users ∧
  s'.categories = s.categories ∧ s'.posts = s.posts ∧ s'.likes = s.likes ∧
  s'.tags = s.tags ∧ s'.post_tags = s.post_tags ∧ s'.bookmarks = s.bookmarks ∧
  s'.comment_reactions = s.comment_reactions ∧ s'.reports = s.reports ∧
  s'.moderation_actions = s.moderation_actions ∧ s'.search_index_meta = s.search_index_meta

-- positionally, every comment is either fully unchanged or is the targeted
-- comment with only its `is_hidden` / `hidden_reason` fields rewritten.
def onlyHiddenFieldsChanged (l l' : List CommentRow) (cid : Int) (hid : Bool)
    (reason : String) : Prop :=
  l'.length = l.length ∧
  ∀ (i : Nat) (c0 : CommentRow), l.get? i = some c0 →
    (l'.get? i = some c0 ∨
      (c0.id = cid ∧ l'.get? i = some { c0 with is_hidden := hid, hidden_reason := reason }))

theorem updateFirst_onlyHidden (l : List CommentRow) (cid : Int) (hid : Bool)
    (reason : String) :
    onlyHiddenFieldsChanged l
      (updateFirst (fun x => x.id == cid)
        (fun x => { x with is_hidden := hid, hidden_reason := reason }) l) cid hid reason := by
  constructor
  · exact updateFirst_length _ _ _
  · intro i c0 h
    rcases updateFirst_get? (fun x => x.id == cid)
        (fun x => { x with is_hidden := hid, hidden_reason := reason }) l i c0 h with
      h1 | ⟨h2, h3⟩
    · exact Or.inl h1
    · exact Or.inr ⟨by simpa using h2, h3⟩

/-- C9: `hideComment` and `unhideComment` modify only the targeted comment's
`is_hidden` and `hidden_reason` fields; every other comment and every other
collection of the state is unchanged. -/
theorem c9_hide_unhide_frame (s : St) (cid : Int) (reason : String) :
    sameExceptComments s (hideComment s cid reason).2 ∧
    onlyHiddenFieldsChanged s.comments (hideComment s cid reason).2.comments
      (toInt cid) true (orS reason "") ∧
    sameExceptComments s (unhideComment s cid).2 ∧
    onlyHiddenFieldsChanged s.comments (unhideComment s cid).2.comments
      (toInt cid) false "" := by
  refine ⟨?_, ?_, ?_, ?_⟩
  · simp only [hideComment]
    cases hf : getCommentRawById s cid <;>
      exact ⟨rfl, rfl, rfl, rfl, rfl, rfl, rfl, rfl, rfl, rfl, rfl, rfl, rfl⟩
  · simp only [hideComment]
    cases hf : getCommentRawById s cid with
    | none => exact ⟨rfl, fun i c0 h => Or.inl h⟩
    | some c => exact updateFirst_onlyHidden s.comments (toInt cid) true (orS reason "")
  · simp only [unhideComment]
    cases hf : getCommentRawById s cid <;>
      exact ⟨rfl, rfl, rfl, rfl, rfl, rfl, rfl, rfl, rfl, rfl, rfl, rfl, rfl⟩
  · simp only [unhideComment]
    cases hf : getCommentRawById s cid with
    | none => exact ⟨rfl, fun i c0 h => Or.inl h⟩
    | some c => exact updateFirst_onlyHidden s.comments (toInt cid) false ""


-- ---------------------------------------------------------------------------
-- Concrete example states for witnesses and counterexamples
-- ---------------------------------------------------------------------------

def exCounters : Counters :=
  { users := 0, categories := 0, posts := 0, likes := 0, comments := 0, tags := 0,
    bookmarks := 0, comment_reactions := 0, reports := 0, moderation_actions := 0 }

def exEmpty : St :=
  { schema_version := 2, counters := exCounters, users := [], categories := [], posts := [],
    likes := [], comments := [], tags := [], post_tags := [], bookmarks := [],
    comment_reactions := [], reports := [], moderation_actions := [],
    search_index_meta := none }

def exComment (i : Int) (pid : Option Int) (d : Int) (pth : String) (postId uid : Int)
    (hid : Bool) : CommentRow :=
  { id := i, user_id := uid, post_id := postId, parent_comment_id := pid, depth := d,
    path := pth, body := "b", is_hidden := hid, hidden_reason := "", created_at := "t0" }

-- a store holding one comment (id 1) that lives in post 2.
def exParentSt : St := { exEmpty with comments := [exComment 1 none 0 "0000000001" 2 9 false] }

def exReport (st : String) : Report :=
  { id := 1, reporter_user_id := 2, target_type := "post", target_id := 3,
    reason_code := "other", reason_text := "", status := st,
    assigned_to_user_id := none, created_at := "t0", resolved_at := none }

def exReportSt (st : String) : St := { exEmpty with reports := [exReport st] }

-- ---------------------------------------------------------------------------
-- C2: addComment parent validation
-- ---------------------------------------------------------------------------

/-- C2 counterexample: calling `addComment` with a non-null `parent_comment_id`
that matches no existing comment does NOT return null with the state unchanged;
the comment collection grows by a new root comment. -/
theorem c2_nonexistent_parent_counterexample :
    getCommentRawById exEmpty 1 = none ∧
    (addComment exEmpty 5 1 "hi" (some 1) "t1").1 ≠ none ∧
    (addComment exEmpty 5 1 "hi" (some 1) "t1").2.comments ≠ exEmpty.comments ∧
    ((addComment exEmpty 5 1 "hi" (some 1) "t1").1.map
      (fun c => (c.parent_comment_id, c.depth))) = some (none, 0) := by
  decide

theorem orI_zero (a : Int) : orI a 0 = a := by
  simp only [orI]
  split <;> omega

/-- C2 amended: a parent reference to an existing comment of a different post
is rejected (`null`, state unchanged); a non-null parent reference that matches
no comment is silently demoted to a root comment (appended, not rejected); and
whenever `addComment` returns null the state is unchanged. -/
theorem c2_parent_validation (s : St) (u postId pid : Int) (body now : String)
    (pc : Option Int) :
    (∀ parent, pid ≠ 0 → getCommentRawById s pid = some parent →
      parent.post_id ≠ toInt postId →
      addComment s u postId body (some pid) now = (none, s)) ∧
    (pid ≠ 0 → getCommentRawById s pid = none →
      ∃ c, (addComment s u postId body (some pid) now).1 = some c ∧
        c.parent_comment_id = none ∧ c.depth = 0 ∧
        (addComment s u postId body (some pid) now).2.comments = s.comments ++ [c]) ∧
    ((addComment s u postId body pc now).1 = none →
      (addComment s u postId body pc now).2 = s) := by
  refine ⟨?_, ?_, ?_⟩
  · intro parent hpid hlook hpost
    simp only [addComment, orOI, if_neg hpid, hlook]
    rw [if_pos hpost]
  · intro hpid hlook
    simp only [addComment, orOI, if_neg hpid, hlook]
    exact ⟨_, rfl, rfl, rfl, rfl⟩
  · cases horOI : orOI pc with
    | none =>
      simp only [addComment, horOI]
      intro h
      simp at h
    | some q =>
      cases hlook : getCommentRawById s q with
      | none =>
        simp only [addComment, horOI, hlook]
        intro h
        simp at h
      | some pr =>
        simp only [addComment, horOI, hlook]
        by_cases hneq : pr.post_id ≠ toInt postId
        · rw [if_pos hneq]
          intro _
          rfl
        · rw [if_neg hneq]
          intro h
          simp at h

/-- Witness for C2: concrete invocations exercising both the different-post
rejection and the nonexistent-parent demotion. -/
theorem c2_parent_validation_witness :
    ((1 : Int) ≠ 0 ∧
      getCommentRawById exParentSt 1 = some (exComment 1 none 0 "0000000001" 2 9 false) ∧
      (exComment 1 none 0 "0000000001" 2 9 false).post_id ≠ toInt 1 ∧
      addComment exParentSt 5 1 "x" (some 1) "t1" = (none, exParentSt)) ∧
    ((1 : Int) ≠ 0 ∧ getCommentRawById exEmpty 1 = none ∧
      ∃ c, (addComment exEmpty 5 1 "x" (some 1) "t1").1 = some c ∧
        c.parent_comment_id = none ∧ c.depth = 0 ∧
        (addComment exEmpty 5 1 "x" (some 1) "t1").2.comments = exEmpty.comments ++ [c]) := by
  constructor
  · refine ⟨by decide, by decide, by decide, ?_⟩
    exact (c2_parent_validation exParentSt 5 1 1 "x" "t1" (some 1)).1
      (exComment 1 none 0 "0000000001" 2 9 false) (by decide) (by decide) (by decide)
  · refine ⟨by decide, by decide, ?_⟩
    exact (c2_parent_validation exEmpty 5 1 1 "x" "t1" (some 1)).2.1 (by decide) (by decide)

-- ---------------------------------------------------------------------------
-- C6: path and depth of newly created comments
-- ---------------------------------------------------------------------------

/-- C6: a successfully created reply satisfies
`path = parent.path ++ "." ++ padId(id)` and `depth = parent.depth + 1`; a root
creation satisfies `path = padId(id)` and `depth = 0`. -/
theorem c6_comment_path_depth (s : St) (u postId pid : Int) (body now : String) :
    (∀ parent, pid ≠ 0 → getCommentRawById s pid = some parent →
      parent.post_id = toInt postId →
      ∃ c, (addComment s u postId body (some pid) now).1 = some c ∧
        c.path = parent.path ++ "." ++ padId c.id ∧
        c.depth = parent.depth + 1 ∧
        c.id = nextIdVal s.counters.comments ∧
        c.parent_comment_id = some parent.id) ∧
    (∃ c, (addComment s u postId body none now).1 = some c ∧
      c.path = padId c.id ∧ c.depth = 0 ∧
      c.id = nextIdVal s.counters.comments ∧ c.parent_comment_id = none) := by
  constructor
  · intro parent hpid hlook hpost
    simp only [addComment, orOI, if_neg hpid, hlook]
    rw [if_neg (by simp [hpost])]
    refine ⟨_, rfl, rfl, ?_, rfl, rfl⟩
    rw [orI_zero]
  · simp only [addComment]
    exact ⟨_, rfl, rfl, rfl, rfl, rfl⟩

/-- Witness for C6: a concrete reply under an existing parent and a concrete
root comment. -/
theorem c6_comment_path_depth_witness :
    ((1 : Int) ≠ 0 ∧
      getCommentRawById exParentSt 1 = some (exComment 1 none 0 "0000000001" 2 9 false) ∧
      (exComment 1 none 0 "0000000001" 2 9 false).post_id = toInt 2 ∧
      (∃ c, (addComment exParentSt 5 2 "x" (some 1) "t1").1 = some c ∧
        c.path = (exComment 1 none 0 "0000000001" 2 9 false).path ++ "." ++ padId c.id ∧
        c.depth = (exComment 1 none 0 "0000000001" 2 9 false).depth + 1 ∧
        c.id = nextIdVal exParentSt.counters.comments ∧
        c.parent_comment_id = some (exComment 1 none 0 "0000000001" 2 9 false).id)) ∧
    (∃ c, (addComment exEmpty 5 1 "x" none "t1").1 = some c ∧
      c.path = padId c.id ∧ c.depth = 0 ∧
      c.id = nextIdVal exEmpty.counters.comments ∧ c.parent_comment_id = none) := by
  constructor
  · refine ⟨by decide, by decide, by decide, ?_⟩
    exact (c6_comment_path_depth exParentSt 5 2 1 "x" "t1").1
      (exComment 1 none 0 "0000000001" 2 9 false) (by decide) (by decide) (by decide)
  · exact (c6_comment_path_depth exEmpty 5 1 1 "x" "t1").2


-- ---------------------------------------------------------------------------
-- C3: report lifecycle
-- ---------------------------------------------------------------------------

theorem assignUpd_id (m : Int) (r : Report) : (assignUpd m r).id = r.id := by
  simp only [assignUpd]
  split <;> rfl

theorem assignUpd_assigned (m : Int) (r : Report) :
    (assignUpd m r).assigned_to_user_id = some (toInt m) := by
  simp only [assignUpd]
  split <;> rfl

theorem assignUpd_status (m : Int) (r : Report) :
    (assignUpd m r).status = if r.status = "open" then "in_review" else r.status := by
  simp only [assignUpd]
  split <;> rfl

theorem find?_updateFirst_self {α : Type} (p : α → Bool) (f : α → α) (l : List α)
    (hpf : ∀ x, p (f x) = p x) {e : α} (h : l.find? p = some e) :
    (updateFirst p f l).find? p = some (f e) := by
  induction l with
  | nil => simp at h
  | cons a as ih =>
    by_cases hpa : p a
    · have hae : a = e := by
        rw [List.find?_cons_of_pos _ hpa] at h
        simpa using h
      subst hae
      have hfa : p (f a) = true := by rw [hpf a]; exact hpa
      simp [updateFirst, hpa, List.find?_cons_of_pos _ hfa]
    · rw [List.find?_cons_of_neg _ hpa] at h
      have hstep : updateFirst p f (a :: as) = a :: updateFirst p f as := by
        simp [updateFirst, hpa]
      rw [hstep, List.find?_cons_of_neg _ hpa]
      exact ih h

theorem find?_updateFirst_cases {α : Type} (p q : α → Bool) (f : α → α) (l : List α)
    (hpf : ∀ x, p (f x) = p x) :
    (updateFirst q f l).find? p = l.find? p ∨
      ∃ x, l.find? p = some x ∧ (updateFirst q f l).find? p = some (f x) := by
  induction l with
  | nil => exact Or.inl rfl
  | cons a as ih =>
    by_cases hq : q a
    · have hstep : updateFirst q f (a :: as) = f a :: as := by simp [updateFirst, hq]
      by_cases hpa : p a
      · have hfa : p (f a) = true := by rw [hpf a]; exact hpa
        exact Or.inr ⟨a, List.find?_cons_of_pos _ hpa,
          by rw [hstep, List.find?_cons_of_pos _ hfa]⟩
      · have hfa : ¬ p (f a) = true := by rw [hpf a]; exact hpa
        exact Or.inl (by rw [hstep, List.find?_cons_of_neg _ hfa,
          List.find?_cons_of_neg _ hpa])
    · have hstep : updateFirst q f (a :: as) = a :: updateFirst q f as := by
        simp [updateFirst, hq]
      by_cases hpa : p a
      · exact Or.inl (by rw [hstep, List.find?_cons_of_pos _ hpa,
          List.find?_cons_of_pos _ hpa])
      · rw [hstep, List.find?_cons_of_neg _ hpa, List.find?_cons_of_neg _ hpa]
        exact ih

theorem contains_two_iff (st a b : String) :
    ((([a, b] : List String).contains st) = true) ↔ (st = a ∨ st = b) := by
  constructor
  · intro h
    simpa using h
  · intro h
    rcases h with h1 | h1 <;> simp [h1]

theorem modOp_absorbs (rid : Int) (op : ModOp) (s : St) (r : Report)
    (h : getReportById s rid = some r)
    (ht : r.status = "resolved" ∨ r.status = "dismissed") :
    ∃ r', getReportById (applyModOp s op) rid = some r' ∧
      (r'.status = "resolved" ∨ r'.status = "dismissed") := by
  have hfind : List.find? (fun x => x.id == toInt rid) s.reports = some r := h
  cases op with
  | assign rid2 mid =>
    simp only [applyModOp, assignReport]
    cases hf : getReportById s rid2 with
    | none => exact ⟨r, h, ht⟩
    | some r2 =>
      dsimp only
      rcases find?_updateFirst_cases (fun x => x.id == toInt rid)
          (fun x => x.id == toInt rid2) (assignUpd mid) s.reports
          (fun x => by simp [assignUpd_id]) with hsame | ⟨x, hx, hfx⟩
      · refine ⟨r, ?_, ht⟩
        show (updateFirst (fun x => x.id == toInt rid2) (assignUpd mid) s.reports).find?
          (fun x => x.id == toInt rid) = some r
        rw [hsame]
        exact hfind
      · have hxr : x = r := by
          have hsx := hx.symm.trans hfind
          injection hsx
        subst hxr
        refine ⟨assignUpd mid x, hfx, ?_⟩
        have hno : ¬ x.status = "open" := by
          rcases ht with h1 | h1 <;> simp [h1]
        rw [assignUpd_status, if_neg hno]
        exact ht
  | resolve rid2 st now =>
    simp only [applyModOp, resolveReport]
    cases hf : getReportById s rid2 with
    | none => exact ⟨r, h, ht⟩
    | some r2 =>
      dsimp only
      by_cases hct : (["resolved", "dismissed"] : List String).contains st = true
      · rw [if_neg (by rw [hct]; decide)]
        rcases find?_updateFirst_cases (fun x => x.id == toInt rid)
            (fun x => x.id == toInt rid2) (resolveUpd st now) s.reports
            (fun x => rfl) with hsame | ⟨x, hx, hfx⟩
        · refine ⟨r, ?_, ht⟩
          show (updateFirst (fun x => x.id == toInt rid2) (resolveUpd st now) s.reports).find?
            (fun x => x.id == toInt rid) = some r
          rw [hsame]
          exact hfind
        · exact ⟨resolveUpd st now x, hfx, (contains_two_iff st "resolved" "dismissed").mp hct⟩
      · have hcf : (["resolved", "dismissed"] : List String).contains st = false := by
          cases hcb : (["resolved", "dismissed"] : List String).contains st
          · rfl
          · exact absurd hcb hct
        rw [if_pos (by rw [hcf]; rfl)]
        exact ⟨r, h, ht⟩

theorem modOps_absorb (rid : Int) (ops : List ModOp) : ∀ (s : St) (r : Report),
    getReportById s rid = some r →
    (r.status = "resolved" ∨ r.status = "dismissed") →
    ∃ r', getReportById (applyModOps s ops) rid = some r' ∧
      (r'.status = "resolved" ∨ r'.status = "dismissed") := by
  induction ops with
  | nil => intro s r h ht; exact ⟨r, h, ht⟩
  | cons op ops ih =>
    intro s r h ht
    rcases modOp_absorbs rid op s r h ht with ⟨r1, h1, ht1⟩
    simpa [applyModOps] using ih (applyModOp s op) r1 h1 ht1

/-- C3 counterexample: a report that has reached the status `resolved` is
changed again by a further `resolveReport` call, which flips it to
`dismissed` — terminal statuses are not sticky. -/
theorem c3_terminal_counterexample :
    ((getReportById (exReportSt "resolved") 1).map (fun r => r.status)) = some "resolved" ∧
    ((getReportById (resolveReport (exReportSt "resolved") 1 "dismissed" "t2").2 1).map
      (fun r => r.status)) = some "dismissed" ∧
    ("dismissed" : String) ≠ "resolved" := by
  decide

/-- C3 amended: `assignReport` promotes exactly `open` to `in_review` (other
statuses are preserved) and records the assignee; `resolveReport` rejects any
target status outside `{resolved, dismissed}` with no state change, and
otherwise stamps the target status and `resolved_at`; and under any further
sequence of assign/resolve calls a report that reached `{resolved, dismissed}`
stays inside `{resolved, dismissed}` (though it may flip between the two). -/
theorem c3_report_lifecycle (s : St) (rid mid : Int) (target now : String)
    (ops : List ModOp) :
    (∀ r, getReportById s rid = some r →
      ∃ r', getReportById (assignReport s rid mid).2 rid = some r' ∧
        r'.status = (if r.status = "open" then "in_review" else r.status) ∧
        r'.assigned_to_user_id = some (toInt mid)) ∧
    (¬ (target = "resolved" ∨ target = "dismissed") →
      resolveReport s rid target now = (none, s)) ∧
    (∀ r, getReportById s rid = some r → (target = "resolved" ∨ target = "dismissed") →
      ∃ r', getReportById (resolveReport s rid target now).2 rid = some r' ∧
        r'.status = target ∧ r'.resolved_at = some now) ∧
    (∀ r, getReportById s rid = some r →
      (r.status = "resolved" ∨ r.status = "dismissed") →
      ∃ r', getReportById (applyModOps s ops) rid = some r' ∧
        (r'.status = "resolved" ∨ r'.status = "dismissed")) := by
  refine ⟨?_, ?_, ?_, ?_⟩
  · intro r h
    have hfind : List.find? (fun x => x.id == toInt rid) s.reports = some r := h
    simp only [assignReport, h]
    refine ⟨assignUpd mid r, ?_, assignUpd_status mid r, assignUpd_assigned mid r⟩
    show (updateFirst (fun x => x.id == toInt rid) (assignUpd mid) s.reports).find?
      (fun x => x.id == toInt rid) = some (assignUpd mid r)
    exact find?_updateFirst_self _ _ _ (fun x => by simp [assignUpd_id]) hfind
  · intro hbad
    have h1 : target ≠ "resolved" := fun he => hbad (Or.inl he)
    have h2 : target ≠ "dismissed" := fun he => hbad (Or.inr he)
    simp only [resolveReport]
    cases hf : getReportById s rid with
    | none => rfl
    | some r2 =>
      dsimp only
      rw [if_pos (by simp [h1, h2])]
  · intro r h hv
    have hfind : List.find? (fun x => x.id == toInt rid) s.reports = some r := h
    have hct : (["resolved", "dismissed"] : List String).contains target = true :=
      (contains_two_iff target "resolved" "dismissed").mpr hv
    simp only [resolveReport, h]
    rw [if_neg (by rw [hct]; decide)]
    refine ⟨resolveUpd target now r, ?_, rfl, rfl⟩
    show (updateFirst (fun x => x.id == toInt rid) (resolveUpd target now) s.reports).find?
      (fun x => x.id == toInt rid) = some (resolveUpd target now r)
    exact find?_updateFirst_self (fun x => x.id == toInt rid) (resolveUpd target now)
      s.reports (fun x => rfl) hfind
  · intro r h ht
    exact modOps_absorb rid ops s r h ht

/-- Witness for C3: an open report is assigned (status becomes `in_review`), a
bogus target status is rejected unchanged, a valid resolution stamps status
and timestamp, and a resolved report stays within the terminal set under a
further resolve call. -/
theorem c3_report_lifecycle_witness :
    (getReportById (exReportSt "open") 1 = some (exReport "open") ∧
      ∃ r', getReportById (assignReport (exReportSt "open") 1 7).2 1 = some r' ∧
        r'.status = (if (exReport "open").status = "open" then "in_review"
          else (exReport "open").status) ∧
        r'.assigned_to_user_id = some (toInt 7)) ∧
    (¬ (("bogus" : String) = "resolved" ∨ ("bogus" : String) = "dismissed") ∧
      resolveReport (exReportSt "open") 1 "bogus" "t2" = (none, exReportSt "open")) ∧
    (getReportById (exReportSt "in_review") 1 = some (exReport "in_review") ∧
      (("resolved" : String) = "resolved" ∨ ("resolved" : String) = "dismissed") ∧
      ∃ r', getReportById (resolveReport (exReportSt "in_review") 1 "resolved" "t2").2 1 =
          some r' ∧ r'.status = "resolved" ∧ r'.resolved_at = some "t2") ∧
    (getReportById (exReportSt "resolved") 1 = some (exReport "resolved") ∧
      ((exReport "resolved").status = "resolved" ∨
        (exReport "resolved").status = "dismissed") ∧
      ∃ r', getReportById
          (applyModOps (exReportSt "resolved") [ModOp.resolve 1 "dismissed" "t3"]) 1 =
          some r' ∧ (r'.status = "resolved" ∨ r'.status = "dismissed")) := by
  refine ⟨⟨by decide, ?_⟩, ⟨by decide, ?_⟩, ⟨by decide, by decide, ?_⟩,
    ⟨by decide, by decide, ?_⟩⟩
  · exact (c3_report_lifecycle (exReportSt "open") 1 7 "x" "t2" []).1
      (exReport "open") (by decide)
  · exact (c3_report_lifecycle (exReportSt "open") 1 7 "bogus" "t2" []).2.1 (by decide)
  · exact (c3_report_lifecycle (exReportSt "in_review") 1 7 "resolved" "t2" []).2.2.1
      (exReport "in_review") (by decide) (by decide)
  · exact (c3_report_lifecycle (exReportSt "resolved") 1 7 "x" "t2"
      [ModOp.resolve 1 "dismissed" "t3"]).2.2.2 (exReport "resolved") (by decide) (by decide)


/-- Witness for C8: the three double-toggles at a concrete (empty) store. -/
theorem c8_toggle_twice_restores_witness :
    ((exEmpty.likes.filter (fun l => l.user_id == toInt 1 && l.post_id == toInt 2)).length ≤ 1) ∧
    ((exEmpty.bookmarks.filter
      (fun b => b.user_id == toInt 1 && b.post_id == toInt 2)).length ≤ 1) ∧
    ((exEmpty.comment_reactions.filter (fun item => item.comment_id == toInt 3 &&
      item.user_id == toInt 1 && item.reaction_type == "like")).length ≤ 1) ∧
    ((((toggleLike (toggleLike exEmpty 1 2 "t1").2 1 2 "t2").2.likes.filter
        (fun l => l.user_id == toInt 1 && l.post_id == toInt 2)).length =
      (exEmpty.likes.filter (fun l => l.user_id == toInt 1 && l.post_id == toInt 2)).length ∧
      ((toggleLike exEmpty 1 2 "t1").2.likes.filter
        (fun l => l.user_id == toInt 1 && l.post_id == toInt 2)).length ≤ 1) ∧
    (((toggleBookmark (toggleBookmark exEmpty 1 2 "t1").2 1 2 "t2").2.bookmarks.filter
        (fun b => b.user_id == toInt 1 && b.post_id == toInt 2)).length =
      (exEmpty.bookmarks.filter
        (fun b => b.user_id == toInt 1 && b.post_id == toInt 2)).length ∧
      ((toggleBookmark exEmpty 1 2 "t1").2.bookmarks.filter
        (fun b => b.user_id == toInt 1 && b.post_id == toInt 2)).length ≤ 1) ∧
    (((toggleCommentReaction (toggleCommentReaction exEmpty 1 3 "like" "t1").2
          1 3 "like" "t2").2.comment_reactions.filter
        (fun item => item.comment_id == toInt 3 &&
          item.user_id == toInt 1 && item.reaction_type == "like")).length =
      (exEmpty.comment_reactions.filter (fun item => item.comment_id == toInt 3 &&
        item.user_id == toInt 1 && item.reaction_type == "like")).length ∧
      ((toggleCommentReaction exEmpty 1 3 "like" "t1").2.comment_reactions.filter
        (fun item => item.comment_id == toInt 3 &&
          item.user_id == toInt 1 && item.reaction_type == "like")).length ≤ 1)) :=
  ⟨by decide, by decide, by decide,
    c8_toggle_twice_restores exEmpty 1 2 3 "like" "t1" "t2" (by decide) (by decide) (by decide)⟩

-- ---------------------------------------------------------------------------
-- C10: trending never surfaces hidden posts
-- ---------------------------------------------------------------------------

def exPost (i uid : Int) (ti : String) (hid : Bool) : Post :=
  { id := i, user_id := uid, category_id := 1, title := ti, body := "", markdown_body := "m",
    rendered_html := "", excerpt := "e", reading_time_minutes := 1, media_url := "",
    media_type := "none", is_hidden := hid, hidden_reason := "", created_at := "t0" }

-- one visible post (id 1) and one hidden post (id 2).
def exTrendSt : St := { exEmpty with posts := [exPost 1 4 "t" false, exPost 2 4 "u" true] }

/-- C10: `getTrendingPosts` takes no viewer parameter, and for every state and
every limit each returned entry is the projection of some stored post whose
`is_hidden` flag is false — hidden posts never reach the trending list, not
even for their author or a moderator, since no viewer is consulted. -/
theorem c10_trending_excludes_hidden (s : St) (limit : Int) (e : TrendingItem)
    (he : e ∈ getTrendingPosts s limit) :
    ∃ p, p ∈ s.posts ∧ p.is_hidden = false ∧
      e = { id := (trendingRowOf s p).id, title := (trendingRowOf s p).title,
            author_username := (trendingRowOf s p).author_username,
            like_count := (trendingRowOf s p).like_count } := by
  simp only [getTrendingPosts, jsSlice] at he
  rcases List.mem_map.mp he with ⟨row, hrow, hproj⟩
  have h1 : row ∈ (List.insertionSort (fun a b => trendLeB a b = true)
      ((s.posts.filter (fun p => !p.is_hidden)).map (trendingRowOf s))) := by
    exact List.mem_of_mem_drop (List.mem_of_mem_take hrow)
  have h2 : row ∈ (s.posts.filter (fun p => !p.is_hidden)).map (trendingRowOf s) :=
    (List.perm_insertionSort (fun a b => trendLeB a b = true) _).mem_iff.mp h1
  rcases List.mem_map.mp h2 with ⟨p, hp, hrp⟩
  have hpf := List.mem_filter.mp hp
  refine ⟨p, hpf.1, by simpa using hpf.2, ?_⟩
  rw [hrp, ← hproj]

/-- Witness for C10: a concrete store with one visible and one hidden post;
the single trending entry comes from the visible post. -/
theorem c10_trending_excludes_hidden_witness :
    ((⟨1, "t", "deleted", 0⟩ : TrendingItem) ∈ getTrendingPosts exTrendSt 5) ∧
    (∃ p, p ∈ exTrendSt.posts ∧ p.is_hidden = false ∧
      (⟨1, "t", "deleted", 0⟩ : TrendingItem) =
        { id := (trendingRowOf exTrendSt p).id, title := (trendingRowOf exTrendSt p).title,
          author_username := (trendingRowOf exTrendSt p).author_username,
          like_count := (trendingRowOf exTrendSt p).like_count }) :=
  ⟨by decide, c10_trending_excludes_hidden exTrendSt 5 ⟨1, "t", "deleted", 0⟩ (by decide)⟩


-- ---------------------------------------------------------------------------
-- C1: prefix / lexicographic order lemmas
-- ---------------------------------------------------------------------------

theorem listPre_iff (a : List Char) : ∀ b, listPre a b = true ↔ ∃ r, b = a ++ r := by
  induction a with
  | nil => intro b; simp [listPre]
  | cons x xs ih =>
    intro b
    cases b with
    | nil => simp [listPre]
    | cons y ys =>
      simp only [listPre, Bool.and_eq_true, decide_eq_true_eq]
      constructor
      · rintro ⟨hxy, hpre⟩
        rcases (ih ys).mp hpre with ⟨r, hr⟩
        subst hxy
        exact ⟨r, by rw [hr]; rfl⟩
      · rintro ⟨r, hr⟩
        rw [List.cons_append] at hr
        injection hr with h1 h2
        exact ⟨h1.symm, (ih ys).mpr ⟨r, h2⟩⟩

theorem listPre_trans {a b c : List Char} (h1 : listPre a b = true)
    (h2 : listPre b c = true) : listPre a c = true := by
  rcases (listPre_iff a b).mp h1 with ⟨r1, hr1⟩
  rcases (listPre_iff b c).mp h2 with ⟨r2, hr2⟩
  exact (listPre_iff a c).mpr ⟨r1 ++ r2, by rw [hr2, hr1, List.append_assoc]⟩

theorem lexLt_asymm : ∀ a b : List Char, lexLt a b = true → lexLt b a = false := by
  intro a
  induction a with
  | nil =>
    intro b h
    cases b with
    | nil => simp [lexLt] at h
    | cons y ys => simp [lexLt]
  | cons x xs ih =>
    intro b h
    cases b with
    | nil => simp [lexLt] at h
    | cons y ys =>
      simp only [lexLt, Bool.or_eq_true, Bool.and_eq_true, decide_eq_true_eq] at h
      rcases h with h | ⟨heq, h⟩
      · have h1 : ¬ y < x := lt_asymm h
        have h2 : y ≠ x := ne_of_gt h
        simp [lexLt, h1, h2]
      · subst heq
        have h1 : ¬ x < x := lt_irrefl x
        simp [lexLt, h1, ih ys h]

theorem lexLt_total : ∀ a b : List Char, a ≠ b → lexLt a b = true ∨ lexLt b a = true := by
  intro a
  induction a with
  | nil =>
    intro b hne
    cases b with
    | nil => exact absurd rfl hne
    | cons y ys => exact Or.inl (by simp [lexLt])
  | cons x xs ih =>
    intro b hne
    cases b with
    | nil => exact Or.inr (by simp [lexLt])
    | cons y ys =>
      rcases lt_trichotomy x y with h | h | h
      · exact Or.inl (by simp [lexLt, h])
      · subst h
        have hne2 : xs ≠ ys := fun he => hne (by rw [he])
        rcases ih ys hne2 with h2 | h2
        · exact Or.inl (by simp [lexLt, h2])
        · exact Or.inr (by simp [lexLt, h2])
      · exact Or.inr (by simp [lexLt, h])

theorem lexLt_trans : ∀ a b c : List Char, lexLt a b = true → lexLt b c = true →
    lexLt a c = true := by
  intro a
  induction a with
  | nil =>
    intro b c h1 h2
    cases b with
    | nil => simp [lexLt] at h1
    | cons y ys =>
      cases c with
      | nil => simp [lexLt] at h2
      | cons z zs => simp [lexLt]
  | cons x xs ih =>
    intro b c h1 h2
    cases b with
    | nil => simp [lexLt] at h1
    | cons y ys =>
      cases c with
      | nil => simp [lexLt] at h2
      | cons z zs =>
        simp only [lexLt, Bool.or_eq_true, Bool.and_eq_true, decide_eq_true_eq] at h1 h2 ⊢
        rcases h1 with h1 | ⟨he1, h1⟩
        · rcases h2 with h2 | ⟨he2, h2⟩
          · exact Or.inl (lt_trans h1 h2)
          · exact Or.inl (he2 ▸ h1)
        · rcases h2 with h2 | ⟨he2, h2⟩
          · exact Or.inl (he1 ▸ h2)
          · exact Or.inr ⟨he1.trans he2, ih ys zs h1 h2⟩

theorem pre_ne_lexLt : ∀ a b : List Char, listPre a b = true → a ≠ b →
    lexLt a b = true := by
  intro a
  induction a with
  | nil =>
    intro b hpre hne
    cases b with
    | nil => exact absurd rfl hne
    | cons y ys => simp [lexLt]
  | cons x xs ih =>
    intro b hpre hne
    cases b with
    | nil => simp [listPre] at hpre
    | cons y ys =>
      simp only [listPre, Bool.and_eq_true, decide_eq_true_eq] at hpre
      rcases hpre with ⟨hxy, hpre⟩
      subst hxy
      have hne2 : xs ≠ ys := fun he => hne (by rw [he])
      simp [lexLt, ih ys hpre hne2]

-- `strStarts c (a ++ ".")` makes `a.data` a strict prefix of `c.data`.
theorem ancestor_lexLt {a c : String} (h : strStarts c (a ++ ".") = true) :
    lexLt a.data c.data = true ∧ a.data ≠ c.data := by
  have hdata : (a ++ ".").data = a.data ++ ['.'] := by
    rw [String.data_append]
  have hpre : listPre (a.data ++ ['.']) c.data = true := by
    have := h
    rw [strStarts, hdata] at this
    exact this
  rcases (listPre_iff _ _).mp hpre with ⟨r, hr⟩
  have hp2 : listPre a.data c.data = true :=
    (listPre_iff _ _).mpr ⟨'.' :: r, by rw [hr, List.append_assoc]; rfl⟩
  have hne : a.data ≠ c.data := by
    intro he
    have hlen := congrArg List.length hr
    rw [← he] at hlen
    simp at hlen
  exact ⟨pre_ne_lexLt _ _ hp2 hne, hne⟩

theorem strStarts_trans_dot {pre x c : String} (h1 : strStarts x pre = true)
    (h2 : strStarts c (x ++ ".") = true) : strStarts c pre = true := by
  have hdata : (x ++ ".").data = x.data ++ ['.'] := by
    rw [String.data_append]
  have hp2 : listPre (x.data ++ ['.']) c.data = true := by
    have := h2
    rw [strStarts, hdata] at this
    exact this
  have hx : listPre x.data (x.data ++ ['.']) = true := (listPre_iff _ _).mpr ⟨['.'], rfl⟩
  exact listPre_trans (listPre_trans h1 hx) hp2


-- ---------------------------------------------------------------------------
-- C1: the comment sort comparator is total and transitive
-- ---------------------------------------------------------------------------

theorem commentRel_total : IsTotal CommentRow (fun a b => commentLeB a b = true) := by
  constructor
  intro a b
  by_cases hp : a.path = b.path
  · rcases le_total a.created_at b.created_at with h | h
    · left
      unfold commentLeB
      rw [if_pos hp]
      exact decide_eq_true h
    · right
      unfold commentLeB
      rw [if_pos hp.symm]
      exact decide_eq_true h
  · have hp' : ¬ b.path = a.path := fun he => hp he.symm
    have hd : a.path.data ≠ b.path.data := fun h => hp (String.ext h)
    rcases lexLt_total a.path.data b.path.data hd with h | h
    · left
      unfold commentLeB
      rw [if_neg hp]
      exact h
    · right
      unfold commentLeB
      rw [if_neg hp']
      exact h

theorem commentRel_trans : IsTrans CommentRow (fun a b => commentLeB a b = true) := by
  constructor
  intro a b c hab hbc
  unfold commentLeB at hab hbc ⊢
  by_cases h1 : a.path = b.path <;> by_cases h2 : b.path = c.path
  · rw [if_pos h1] at hab
    rw [if_pos h2] at hbc
    rw [if_pos (h1.trans h2)]
    exact decide_eq_true (le_trans (of_decide_eq_true hab) (of_decide_eq_true hbc))
  · rw [if_pos h1] at hab
    rw [if_neg h2] at hbc
    have hac : ¬ a.path = c.path := by rw [h1]; exact h2
    rw [if_neg hac]
    show lexLt a.path.data c.path.data = true
    rw [h1]
    exact hbc
  · rw [if_neg h1] at hab
    rw [if_pos h2] at hbc
    have hac : ¬ a.path = c.path := fun he => h1 (he.trans h2.symm)
    rw [if_neg hac]
    show lexLt a.path.data c.path.data = true
    rw [← h2]
    exact hab
  · rw [if_neg h1] at hab
    rw [if_neg h2] at hbc
    by_cases hac : a.path = c.path
    · exfalso
      have hab' : lexLt a.path.data b.path.data = true := hab
      have hbc' : lexLt b.path.data c.path.data = true := hbc
      rw [hac] at hab'
      have hasym := lexLt_asymm _ _ hbc'
      rw [hab'] at hasym
      cases hasym
    · rw [if_neg hac]
      exact lexLt_trans _ _ _ hab hbc

-- ---------------------------------------------------------------------------
-- C1: properties of the pruning scan
-- ---------------------------------------------------------------------------

theorem visScan_subset (v : Option Viewer) :
    ∀ (l : List CommentRow) (hp : List String) (c : CommentRow),
      c ∈ visScan v l hp → c ∈ l := by
  intro l
  induction l with
  | nil => intro hp c h; simp [visScan] at h
  | cons x rest ih =>
    intro hp c h
    simp only [visScan] at h
    by_cases h1 : (hp.any (fun pre => strStarts x.path pre)) = true
    · rw [if_pos h1] at h
      exact List.mem_cons_of_mem x (ih hp c h)
    · rw [if_neg h1] at h
      by_cases h2 : (x.is_hidden && !(canViewHidden v x.user_id)) = true
      · rw [if_pos h2] at h
        exact List.mem_cons_of_mem x (ih _ c h)
      · rw [if_neg h2] at h
        rcases List.mem_cons.mp h with h3 | h3
        · exact h3 ▸ List.mem_cons_self x rest
        · exact List.mem_cons_of_mem x (ih hp c h3)

theorem visScan_no_pre (v : Option Viewer) :
    ∀ (l : List CommentRow) (hp : List String) (pre : String), pre ∈ hp →
      ∀ c ∈ visScan v l hp, strStarts c.path pre = false := by
  intro l
  induction l with
  | nil => intro hp pre hpre c hc; simp [visScan] at hc
  | cons x rest ih =>
    intro hp pre hpre c hc
    simp only [visScan] at hc
    by_cases h1 : (hp.any (fun q => strStarts x.path q)) = true
    · rw [if_pos h1] at hc
      exact ih hp pre hpre c hc
    · rw [if_neg h1] at hc
      by_cases h2 : (x.is_hidden && !(canViewHidden v x.user_id)) = true
      · rw [if_pos h2] at hc
        exact ih _ pre (List.mem_append_left _ hpre) c hc
      · rw [if_neg h2] at hc
        rcases List.mem_cons.mp hc with h3 | h3
        · subst h3
          cases hcp : strStarts c.path pre
          · rfl
          · exact absurd (List.any_eq_true.mpr ⟨pre, hpre, hcp⟩) h1
        · exact ih hp pre hpre c h3

theorem visScan_sound (v : Option Viewer) :
    ∀ (l : List CommentRow) (hp : List String),
      List.Sorted (fun a b => commentLeB a b = true) l →
      ∀ a ∈ l, a.is_hidden = true → canViewHidden v a.user_id = false →
      ∀ c ∈ visScan v l hp, strStarts c.path (a.path ++ ".") = false := by
  intro l
  induction l with
  | nil => intro hp _ a ha; simp at ha
  | cons x rest ih =>
    intro hp hsort a ha hhid hview c hc
    have hsx := (List.sorted_cons.mp hsort).1
    have hsrest := (List.sorted_cons.mp hsort).2
    simp only [visScan] at hc
    by_cases h1 : (hp.any (fun q => strStarts x.path q)) = true
    · rw [if_pos h1] at hc
      rcases List.mem_cons.mp ha with hax | hax
      · subst hax
        rcases List.any_eq_true.mp h1 with ⟨pre, hpre, hxpre⟩
        cases hcp : strStarts c.path (a.path ++ ".")
        · rfl
        · exfalso
          have hcpre : strStarts c.path pre = true := strStarts_trans_dot hxpre hcp
          have := visScan_no_pre v rest hp pre hpre c hc
          rw [hcpre] at this
          cases this
      · exact ih hp hsrest a hax hhid hview c hc
    · rw [if_neg h1] at hc
      by_cases h2 : (x.is_hidden && !(canViewHidden v x.user_id)) = true
      · rw [if_pos h2] at hc
        rcases List.mem_cons.mp ha with hax | hax
        · subst hax
          exact visScan_no_pre v rest _ (a.path ++ ".")
            (List.mem_append_right _ (List.mem_singleton_self _)) c hc
        · exact ih _ hsrest a hax hhid hview c hc
      · rw [if_neg h2] at hc
        rcases List.mem_cons.mp ha with hax | hax
        · subst hax
          exfalso
          rw [hhid, hview] at h2
          simp at h2
        · rcases List.mem_cons.mp hc with hcx | hcx
          · subst hcx
            cases hcp : strStarts c.path (a.path ++ ".")
            · rfl
            · exfalso
              rcases ancestor_lexLt hcp with ⟨hlt, hne⟩
              have hrel : commentLeB c a = true := hsx a hax
              have hpne : c.path ≠ a.path := fun he => hne (by rw [he])
              rw [commentLeB, if_neg hpne] at hrel
              rw [pathLt] at hrel
              have := lexLt_asymm _ _ hlt
              rw [hrel] at this
              cases this
          · exact ih hp hsrest a hax hhid hview c hcx

theorem visScan_complete (v : Option Viewer) :
    ∀ (l : List CommentRow) (hp : List String) (c : CommentRow), c ∈ l →
      (c.is_hidden = false ∨ canViewHidden v c.user_id = true) →
      (∀ a ∈ l, a.is_hidden = true → canViewHidden v a.user_id = false →
        strStarts c.path (a.path ++ ".") = false) →
      (∀ pre ∈ hp, strStarts c.path pre = false) →
      c ∈ visScan v l hp := by
  intro l
  induction l with
  | nil => intro hp c hc; simp at hc
  | cons x rest ih =>
    intro hp c hc hown hanc hhp
    simp only [visScan]
    rcases List.mem_cons.mp hc with hcx | hcx
    · subst hcx
      have h1 : (hp.any (fun q => strStarts c.path q)) = false := by
        cases hany : hp.any (fun q => strStarts c.path q)
        · rfl
        · rcases List.any_eq_true.mp hany with ⟨pre, hpre, hcp⟩
          rw [hhp pre hpre] at hcp
          cases hcp
      rw [if_neg (by rw [h1]; decide)]
      have h2 : (c.is_hidden && !(canViewHidden v c.user_id)) = false := by
        rcases hown with h | h <;> simp [h]
      rw [if_neg (by rw [h2]; decide)]
      exact List.mem_cons_self _ _
    · by_cases h1 : (hp.any (fun q => strStarts x.path q)) = true
      · rw [if_pos h1]
        exact ih hp c hcx hown (fun a ha => hanc a (List.mem_cons_of_mem x ha)) hhp
      · rw [if_neg h1]
        by_cases h2 : (x.is_hidden && !(canViewHidden v x.user_id)) = true
        · rw [if_pos h2]
          have h2' : x.is_hidden = true ∧ !(canViewHidden v x.user_id) = true := by
            simpa using h2
          have hxh : x.is_hidden = true := h2'.1
          have hxv : canViewHidden v x.user_id = false := by simpa using h2'.2
          refine ih _ c hcx hown (fun a ha => hanc a (List.mem_cons_of_mem x ha)) ?_
          intro pre hpre
          rcases List.mem_append.mp hpre with hl | hr
          · exact hhp pre hl
          · rw [List.mem_singleton.mp hr]
            exact hanc x (List.mem_cons_self x rest) hxh hxv
        · rw [if_neg h2]
          exact List.mem_cons_of_mem x
            (ih hp c hcx hown (fun a ha => hanc a (List.mem_cons_of_mem x ha)) hhp)


-- ---------------------------------------------------------------------------
-- C1: visible comments — counterexample, amended theorem, witness
-- ---------------------------------------------------------------------------

def exC1root : CommentRow := exComment 1 none 0 "0000000001" 1 10 true

def exC1child : CommentRow := exComment 2 (some 1) 1 "0000000001.0000000002" 1 5 true

-- post 1 holds a hidden root by user 10 and, below it, a hidden reply by user 5.
def exC1St : St := { exEmpty with comments := [exC1root, exC1child] }

def exC1own : CommentRow := exComment 3 none 0 "0000000003" 1 5 true

def exC1WSt : St := { exEmpty with comments := [exC1own] }

/-- C1 counterexample: viewer 5's own hidden reply sits under a hidden root
authored by someone else, and subtree pruning removes it — the returned list
does NOT contain every hidden comment authored by the viewer. -/
theorem c1_own_hidden_pruned_counterexample :
    (exC1child ∈ exC1St.comments ∧ exC1child.post_id = toInt 1 ∧
      exC1child.is_hidden = true ∧ exC1child.user_id = (5 : Int)) ∧
    exC1child ∉ getVisibleCommentsForPost exC1St 1 (some ⟨5, "user"⟩) := by
  decide

/-- C1 amended: every returned comment belongs to the post and has no hidden,
viewer-invisible proper ancestor (path-plus-dot prefix) among the post's
comments; and every comment of the post authored by the viewer — hidden or
not — IS returned provided none of its proper ancestors is hidden and
invisible to the viewer (subtree pruning removes even the viewer's own hidden
comments when such an ancestor exists). -/
theorem c1_visible_comments (s : St) (postId : Int) (viewer : Option Viewer) :
    (∀ c ∈ getVisibleCommentsForPost s postId viewer,
      c ∈ s.comments ∧ c.post_id = toInt postId ∧
      ∀ a ∈ s.comments, a.post_id = toInt postId → a.is_hidden = true →
        canViewHidden viewer a.user_id = false →
        strStarts c.path (a.path ++ ".") = false) ∧
    (∀ v c, viewer = some v → c ∈ s.comments → c.post_id = toInt postId →
      c.user_id = v.id →
      (∀ a ∈ s.comments, a.post_id = toInt postId → a.is_hidden = true →
        canViewHidden viewer a.user_id = false →
        strStarts c.path (a.path ++ ".") = false) →
      c ∈ getVisibleCommentsForPost s postId viewer) := by
  have hperm := List.perm_insertionSort (fun a b => commentLeB a b = true)
    (s.comments.filter (fun c => c.post_id == toInt postId))
  letI : IsTotal CommentRow (fun a b => commentLeB a b = true) := commentRel_total
  letI : IsTrans CommentRow (fun a b => commentLeB a b = true) := commentRel_trans
  have hsorted := List.sorted_insertionSort (fun a b => commentLeB a b = true)
    (s.comments.filter (fun c => c.post_id == toInt postId))
  constructor
  · intro c hc
    simp only [getVisibleCommentsForPost] at hc
    have hcl := visScan_subset viewer _ [] c hc
    have hcf := hperm.mem_iff.mp hcl
    have hcs := List.mem_filter.mp hcf
    refine ⟨hcs.1, by simpa using hcs.2, ?_⟩
    intro a ha hapost hahid haview
    have haf : a ∈ s.comments.filter (fun c => c.post_id == toInt postId) :=
      List.mem_filter.mpr ⟨ha, by simpa using hapost⟩
    have hal := hperm.mem_iff.mpr haf
    exact visScan_sound viewer _ [] hsorted a hal hahid haview c hc
  · intro v c hv hc hpost huser hanc
    have hcf : c ∈ s.comments.filter (fun c => c.post_id == toInt postId) :=
      List.mem_filter.mpr ⟨hc, by simpa using hpost⟩
    have hcl := hperm.mem_iff.mpr hcf
    simp only [getVisibleCommentsForPost]
    refine visScan_complete viewer _ [] c hcl ?_ ?_ ?_
    · right
      rw [hv]
      show (if v.id = c.user_id then true else isModeratorRole v.role) = true
      rw [if_pos huser.symm]
    · intro a ha hahid haview
      have haf := hperm.mem_iff.mp ha
      have has := List.mem_filter.mp haf
      exact hanc a has.1 (by simpa using has.2) hahid haview
    · intro pre hpre
      simp at hpre

/-- Witness for C1: a moderator-invisible hidden root is never an ancestor of
a returned comment, and a viewer's own hidden root comment (with no ancestors
at all) is returned to them. -/
theorem c1_visible_comments_witness :
    (exC1root ∈ getVisibleCommentsForPost exC1St 1 (some ⟨10, "user"⟩) ∧
      (exC1root ∈ exC1St.comments ∧ exC1root.post_id = toInt 1 ∧
        ∀ a ∈ exC1St.comments, a.post_id = toInt 1 → a.is_hidden = true →
          canViewHidden (some ⟨10, "user"⟩) a.user_id = false →
          strStarts exC1root.path (a.path ++ ".") = false)) ∧
    ((some (⟨5, "user"⟩ : Viewer) = some (⟨5, "user"⟩ : Viewer)) ∧
      exC1own ∈ exC1WSt.comments ∧ exC1own.post_id = toInt 1 ∧
      exC1own.user_id = (⟨5, "user"⟩ : Viewer).id ∧
      (∀ a ∈ exC1WSt.comments, a.post_id = toInt 1 → a.is_hidden = true →
        canViewHidden (some ⟨5, "user"⟩) a.user_id = false →
        strStarts exC1own.path (a.path ++ ".") = false) ∧
      exC1own ∈ getVisibleCommentsForPost exC1WSt 1 (some ⟨5, "user"⟩)) := by
  constructor
  · exact ⟨by decide,
      (c1_visible_comments exC1St 1 (some ⟨10, "user"⟩)).1 exC1root (by decide)⟩
  · refine ⟨rfl, by decide, by decide, by decide, by decide, ?_⟩
    exact (c1_visible_comments exC1WSt 1 (some ⟨5, "user"⟩)).2 ⟨5, "user"⟩ exC1own rfl
      (by decide) (by decide) (by decide) (by decide)


-- ---------------------------------------------------------------------------
-- C4: migration repair of the comment tree
-- ---------------------------------------------------------------------------

-- the id set collected by the first comment pass (`commentSeen`).
def commentSeenIds (now : String) (comments : List CommentRow) : List Int :=
  (comments.map (migrateCommentA now)).map (fun c => c.id)

def exC4c1 : CommentRow := exComment 1 none 0 "0000000001" 1 9 false

def exC4c2 : CommentRow := exComment 2 (some 1) 1 "0000000001.0000000002" 1 9 false

-- depth-2 comment with a valid parent chain 1 → 2 → 3 but a missing path.
def exC4c3 : CommentRow := exComment 3 (some 2) 2 "" 1 9 false

def exC4St : St := { exEmpty with comments := [exC4c1, exC4c2, exC4c3] }

-- a comment whose parent id 7 matches nothing in the set.
def exC4DSt : St := { exEmpty with comments := [exComment 5 (some 7) 3 "x" 1 9 false] }

/-- C4 counterexample: a comment with an intact grandparent chain and a missing
path is migrated to the two-segment path `pad(parent).pad(id)`, not to the
dot-joined padded ids of its full ancestor chain. -/
theorem c4_two_segment_counterexample :
    ((migrateState "2024-01-01T00:00:00.000Z" exC4St).comments.map (fun c => c.path)) =
      ["0000000001", "0000000001.0000000002", "0000000002.0000000003"] ∧
    padId 1 ++ "." ++ padId 2 ++ "." ++ padId 3 = "0000000001.0000000002.0000000003" ∧
    ("0000000002.0000000003" : String) ≠ "0000000001.0000000002.0000000003" := by
  decide

theorem migrateCommentB_dangling (seen : List Int) (c : CommentRow) (pid : Int)
    (hpid : c.parent_comment_id = some pid) (hne : pid ≠ 0)
    (hcont : ¬ seen.contains pid = true) :
    (migrateCommentB seen c).parent_comment_id = none ∧
    (migrateCommentB seen c).depth = 0 := by
  have hc1 : (match c.parent_comment_id with
      | some pid =>
        if pid ≠ 0 ∧ ¬ seen.contains pid = true then
          { c with parent_comment_id := none, depth := 0 }
        else c
      | none => c) = { c with parent_comment_id := none, depth := 0 } := by
    rw [hpid]
    exact if_pos ⟨hne, hcont⟩
  simp only [migrateCommentB]
  rw [hc1]
  constructor
  · split <;> rfl
  · split <;> rfl

theorem migrateCommentB_parent_sub (seen : List Int) (c : CommentRow) :
    (migrateCommentB seen c).parent_comment_id = c.parent_comment_id ∨
    (migrateCommentB seen c).parent_comment_id = none := by
  cases hp : c.parent_comment_id with
  | none =>
    right
    have hc1 : (match c.parent_comment_id with
        | some pid =>
          if pid ≠ 0 ∧ ¬ seen.contains pid = true then
            { c with parent_comment_id := none, depth := 0 }
          else c
        | none => c) = c := by rw [hp]
    simp only [migrateCommentB]
    rw [hc1]
    split
    · exact hp
    · exact hp
  | some q =>
    by_cases hd : q ≠ 0 ∧ ¬ seen.contains q = true
    · right
      have hc1 : (match c.parent_comment_id with
          | some pid =>
            if pid ≠ 0 ∧ ¬ seen.contains pid = true then
              { c with parent_comment_id := none, depth := 0 }
            else c
          | none => c) = { c with parent_comment_id := none, depth := 0 } := by
        rw [hp]
        exact if_pos hd
      simp only [migrateCommentB]
      rw [hc1]
      split <;> rfl
    · left
      have hc1 : (match c.parent_comment_id with
          | some pid =>
            if pid ≠ 0 ∧ ¬ seen.contains pid = true then
              { c with parent_comment_id := none, depth := 0 }
            else c
          | none => c) = c := by
        rw [hp]
        exact if_neg hd
      simp only [migrateCommentB]
      rw [hc1]
      split <;> exact hp

theorem migrateCommentB_path (seen : List Int) (c : CommentRow) (hpath : c.path = "") :
    ((migrateCommentB seen c).parent_comment_id = none →
      (migrateCommentB seen c).path = padId c.id) ∧
    (∀ pid, (migrateCommentB seen c).parent_comment_id = some pid → pid ≠ 0 →
      (migrateCommentB seen c).path = padId pid ++ "." ++ padId c.id) := by
  cases hp : c.parent_comment_id with
  | none =>
    have hc1 : (match c.parent_comment_id with
        | some pid =>
          if pid ≠ 0 ∧ ¬ seen.contains pid = true then
            { c with parent_comment_id := none, depth := 0 }
          else c
        | none => c) = c := by rw [hp]
    have hres : migrateCommentB seen c = { c with path := padId c.id } := by
      simp only [migrateCommentB]
      rw [hc1, if_pos hpath, hp]
    rw [hres]
    constructor
    · intro _
      rfl
    · intro pid hpid
      have h2 : c.parent_comment_id = some pid := hpid
      rw [hp] at h2
      cases h2
  | some q =>
    by_cases hd : q ≠ 0 ∧ ¬ seen.contains q = true
    · have hc1 : (match c.parent_comment_id with
          | some pid =>
            if pid ≠ 0 ∧ ¬ seen.contains pid = true then
              { c with parent_comment_id := none, depth := 0 }
            else c
          | none => c) = { c with parent_comment_id := none, depth := 0 } := by
        rw [hp]
        exact if_pos hd
      have hpath1 : ({ c with parent_comment_id := none, depth := 0 } : CommentRow).path = "" :=
        hpath
      have hres : migrateCommentB seen c =
          { c with parent_comment_id := none, depth := 0, path := padId c.id } := by
        simp only [migrateCommentB]
        rw [hc1, if_pos hpath1]
      rw [hres]
      constructor
      · intro _
        rfl
      · intro pid hpid
        have h2 : (none : Option Int) = some pid := hpid
        cases h2
    · have hc1 : (match c.parent_comment_id with
          | some pid =>
            if pid ≠ 0 ∧ ¬ seen.contains pid = true then
              { c with parent_comment_id := none, depth := 0 }
            else c
          | none => c) = c := by
        rw [hp]
        exact if_neg hd
      have hres : migrateCommentB seen c =
          { c with path := if q ≠ 0 then padId q ++ "." ++ padId c.id else padId c.id } := by
        simp only [migrateCommentB]
        rw [hc1, if_pos hpath, hp]
      rw [hres]
      constructor
      · intro hnone
        have h2 : c.parent_comment_id = none := hnone
        rw [hp] at h2
        cases h2
      · intro pid hpid hne
        have h2 : c.parent_comment_id = some pid := hpid
        rw [hp] at h2
        injection h2 with h3
        subst h3
        show (if q ≠ 0 then padId q ++ "." ++ padId c.id else padId c.id) =
          padId q ++ "." ++ padId c.id
        rw [if_pos hne]

/-- C4 amended: after migration every comment whose (coerced) parent reference
does not match an id present in the set ends with `parent_comment_id = null`
and `depth = 0`; and every comment whose stored path was empty gets
`padId(parent) ++ "." ++ padId(id)` when it still has a parent after repair,
or `padId(id)` when it is a root — only one parent segment, never the full
ancestor chain. -/
theorem c4_comment_repair (s : St) (now : String) :
    ((migrateState now s).comments = (s.comments.map (migrateCommentA now)).map
      (migrateCommentB (commentSeenIds now s.comments))) ∧
    (∀ c ∈ s.comments.map (migrateCommentA now),
      (∀ pid, c.parent_comment_id = some pid → pid ≠ 0 →
        pid ∉ commentSeenIds now s.comments →
        (migrateCommentB (commentSeenIds now s.comments) c).parent_comment_id = none ∧
        (migrateCommentB (commentSeenIds now s.comments) c).depth = 0) ∧
      (c.path = "" → ∀ pid,
        (migrateCommentB (commentSeenIds now s.comments) c).parent_comment_id = some pid →
        (migrateCommentB (commentSeenIds now s.comments) c).path =
          padId pid ++ "." ++ padId c.id) ∧
      (c.path = "" →
        (migrateCommentB (commentSeenIds now s.comments) c).parent_comment_id = none →
        (migrateCommentB (commentSeenIds now s.comments) c).path = padId c.id)) := by
  constructor
  · rfl
  · intro c hcmem
    have hpid0 : ∀ pid, c.parent_comment_id = some pid → pid ≠ 0 := by
      rcases List.mem_map.mp hcmem with ⟨c0, _, hc0⟩
      intro pid hpid
      rw [← hc0] at hpid
      simp only [migrateCommentA, orOI] at hpid
      cases hp0 : c0.parent_comment_id with
      | none => rw [hp0] at hpid; simp at hpid
      | some n =>
        rw [hp0] at hpid
        dsimp only at hpid
        by_cases hn : n = 0
        · rw [if_pos hn] at hpid; cases hpid
        · rw [if_neg hn] at hpid
          injection hpid with he
          rw [← he]
          exact hn
    refine ⟨?_, ?_, ?_⟩
    · intro pid hpid hne hnotin
      refine migrateCommentB_dangling _ c pid hpid hne ?_
      intro hc
      exact hnotin (by simpa using hc)
    · intro hpath pid hparent
      rcases migrateCommentB_parent_sub (commentSeenIds now s.comments) c with hs | hs
      · have hcp : c.parent_comment_id = some pid := by rw [← hs]; exact hparent
        exact (migrateCommentB_path _ c hpath).2 pid hparent (hpid0 pid hcp)
      · rw [hs] at hparent
        cases hparent
    · intro hpath hparent
      exact (migrateCommentB_path _ c hpath).1 hparent

/-- Witness for C4: a dangling parent (id 7 absent) is reset to a depth-0
root, and missing paths are rebuilt as one- or two-segment padded paths. -/
theorem c4_comment_repair_witness :
    ((migrateState "t9" exC4DSt).comments = (exC4DSt.comments.map (migrateCommentA "t9")).map
      (migrateCommentB (commentSeenIds "t9" exC4DSt.comments))) ∧
    (migrateCommentA "t9" (exComment 5 (some 7) 3 "x" 1 9 false) ∈
      exC4DSt.comments.map (migrateCommentA "t9") ∧
      (migrateCommentA "t9" (exComment 5 (some 7) 3 "x" 1 9 false)).parent_comment_id =
        some 7 ∧ (7 : Int) ≠ 0 ∧ (7 : Int) ∉ commentSeenIds "t9" exC4DSt.comments ∧
      (migrateCommentB (commentSeenIds "t9" exC4DSt.comments)
        (migrateCommentA "t9" (exComment 5 (some 7) 3 "x" 1 9 false))).parent_comment_id =
        none ∧
      (migrateCommentB (commentSeenIds "t9" exC4DSt.comments)
        (migrateCommentA "t9" (exComment 5 (some 7) 3 "x" 1 9 false))).depth = 0) ∧
    (migrateCommentA "t9" exC4c3 ∈ exC4St.comments.map (migrateCommentA "t9") ∧
      (migrateCommentA "t9" exC4c3).path = "" ∧
      (migrateCommentB (commentSeenIds "t9" exC4St.comments)
        (migrateCommentA "t9" exC4c3)).parent_comment_id = some 2 ∧
      (migrateCommentB (commentSeenIds "t9" exC4St.comments)
        (migrateCommentA "t9" exC4c3)).path =
        padId 2 ++ "." ++ padId (migrateCommentA "t9" exC4c3).id) := by
  refine ⟨(c4_comment_repair exC4DSt "t9").1, ?_, ?_⟩
  · refine ⟨by decide, by decide, by decide, by decide, ?_⟩
    exact ((c4_comment_repair exC4DSt "t9").2
      (migrateCommentA "t9" (exComment 5 (some 7) 3 "x" 1 9 false)) (by decide)).1
      7 (by decide) (by decide) (by decide)
  · refine ⟨by decide, by decide, by decide, ?_⟩
    exact (((c4_comment_repair exC4St "t9").2 (migrateCommentA "t9" exC4c3)
      (by decide)).2.1) (by decide) 2 (by decide)


-- ---------------------------------------------------------------------------
-- C7: basic facts about the JS truthiness combinators
-- ---------------------------------------------------------------------------

theorem orS_empty_right (a : String) : orS a "" = a := by
  unfold orS
  split
  next h => rw [h]
  next => rfl

theorem orS_stable {b : String} (h : b ≠ "") (a c : String) :
    orS (orS a b) c = orS a b := by
  unfold orS
  by_cases ha : a = ""
  · rw [if_pos ha, if_neg h]
  · rw [if_neg ha, if_neg ha]

theorem orS_absorb (a x : String) : orS (orS a x) x = orS a x := by
  unfold orS
  by_cases ha : a = ""
  · rw [if_pos ha]
    split <;> rfl
  · rw [if_neg ha, if_neg ha]

theorem orS_ne_empty {a : String} (h : a ≠ "") (b : String) : orS a b = a := by
  unfold orS
  rw [if_neg h]

theorem orI_absorb (a x : Int) : orI (orI a x) x = orI a x := by
  unfold orI
  by_cases ha : a = 0
  · rw [if_pos ha]
    split <;> rfl
  · rw [if_neg ha, if_neg ha]

theorem orI_ne_zero {b : Int} (h : b ≠ 0) (a : Int) : orI a b ≠ 0 := by
  unfold orI
  split
  · exact h
  next ha => exact ha

theorem orI_of_ne {a : Int} (h : a ≠ 0) (b : Int) : orI a b = a := by
  unfold orI
  rw [if_neg h]

theorem orOS_idem (a : Option String) : orOS (orOS a) = orOS a := by
  cases a with
  | none => rfl
  | some s =>
    by_cases hs : s = "" <;> simp [orOS, hs]

theorem orOI_idem (a : Option Int) : orOI (orOI a) = orOI a := by
  cases a with
  | none => rfl
  | some n =>
    by_cases hn : n = 0 <;> simp [orOI, hn]

-- ---------------------------------------------------------------------------
-- C7: lowercase conversion is idempotent
-- ---------------------------------------------------------------------------

theorem char_toNat_ofNat (n : Nat) (h : n.isValidChar) : (Char.ofNat n).toNat = n := by
  rw [Char.ofNat, dif_pos h]
  rfl

theorem lowerChar_eq_self {c : Char} (h : ¬ (65 ≤ c.toNat ∧ c.toNat ≤ 90)) :
    lowerChar c = c := by
  unfold lowerChar
  rw [if_neg h]

theorem lowerChar_idem (c : Char) : lowerChar (lowerChar c) = lowerChar c := by
  by_cases h : 65 ≤ c.toNat ∧ c.toNat ≤ 90
  · have h1 : lowerChar c = Char.ofNat (c.toNat + 32) := by
      unfold lowerChar
      rw [if_pos h]
    have h2 : (Char.ofNat (c.toNat + 32)).toNat = c.toNat + 32 :=
      char_toNat_ofNat _ (Or.inl (by omega))
    rw [h1]
    exact lowerChar_eq_self (by omega)
  · have h1 : lowerChar c = c := lowerChar_eq_self h
    rw [h1]
    exact h1

theorem lowerList_fix {l : List Char} (h : ∀ x ∈ l, lowerChar x = x) :
    lowerList l = l := by
  unfold lowerList
  calc l.map lowerChar = l.map id := List.map_congr_left h
    _ = l := List.map_id l

theorem lowerList_idem (l : List Char) : lowerList (lowerList l) = lowerList l := by
  refine lowerList_fix ?_
  intro x hx
  rcases List.mem_map.mp hx with ⟨y, _, hy⟩
  rw [← hy]
  exact lowerChar_idem y

-- ---------------------------------------------------------------------------
-- C7: two-sided trimming (shared shape of `trim` and the dash strip)
-- ---------------------------------------------------------------------------

def trimByP (p : Char → Bool) (l : List Char) : List Char :=
  ((l.dropWhile p).reverse.dropWhile p).reverse

theorem trimList_eq_trimByP (l : List Char) : trimList l = trimByP wsChar l := rfl

theorem stripDashes_eq_trimByP (l : List Char) :
    stripDashes l = trimByP (fun c => c = '-') l := rfl

theorem head?_dropWhile_not (p : Char → Bool) :
    ∀ (l : List Char) (x : Char), (l.dropWhile p).head? = some x → p x = false := by
  intro l
  induction l with
  | nil => intro x h; simp at h
  | cons a as ih =>
    intro x h
    rw [List.dropWhile_cons] at h
    by_cases hp : p a = true
    · rw [if_pos hp] at h
      exact ih x h
    · rw [if_neg hp] at h
      have hax : a = x := by simpa using h
      subst hax
      exact Bool.eq_false_iff.mpr hp

theorem dropWhile_eq_self_of_head (p : Char → Bool) (l : List Char)
    (h : ∀ x, l.head? = some x → p x = false) : l.dropWhile p = l := by
  cases l with
  | nil => rfl
  | cons a as =>
    rw [List.dropWhile_cons, if_neg]
    rw [h a rfl]
    simp

theorem getLast?_dropWhile (p : Char → Bool) :
    ∀ l : List Char, l.dropWhile p = [] ∨ (l.dropWhile p).getLast? = l.getLast? := by
  intro l
  induction l with
  | nil => exact Or.inl rfl
  | cons a as ih =>
    rw [List.dropWhile_cons]
    by_cases hp : p a = true
    · rw [if_pos hp]
      cases as with
      | nil => exact Or.inl rfl
      | cons b bs =>
        rcases ih with h | h
        · exact Or.inl h
        · exact Or.inr (by rw [h, List.getLast?_cons_cons])
    · rw [if_neg hp]
      exact Or.inr rfl

theorem trimByP_head (p : Char → Bool) (l : List Char) :
    ∀ x, (trimByP p l).head? = some x → p x = false := by
  intro x h
  unfold trimByP at h
  rw [List.head?_reverse] at h
  rcases getLast?_dropWhile p (l.dropWhile p).reverse with he | he
  · rw [he] at h
    simp at h
  · rw [he, List.getLast?_reverse] at h
    exact head?_dropWhile_not p l x h

theorem trimByP_getLast (p : Char → Bool) (l : List Char) :
    ∀ x, (trimByP p l).getLast? = some x → p x = false := by
  intro x h
  unfold trimByP at h
  rw [List.getLast?_reverse] at h
  exact head?_dropWhile_not p (l.dropWhile p).reverse x h

theorem trimByP_eq_self (p : Char → Bool) (l : List Char)
    (hhead : ∀ x, l.head? = some x → p x = false)
    (hlast : ∀ x, l.getLast? = some x → p x = false) : trimByP p l = l := by
  unfold trimByP
  rw [dropWhile_eq_self_of_head p l hhead]
  rw [dropWhile_eq_self_of_head p l.reverse
    (fun x hx => hlast x (by rwa [List.head?_reverse] at hx))]
  exact List.reverse_reverse l

theorem trimByP_idem (p : Char → Bool) (l : List Char) :
    trimByP p (trimByP p l) = trimByP p l := by
  exact trimByP_eq_self p (trimByP p l) (trimByP_head p l) (trimByP_getLast p l)

theorem trimByP_within (p : Char → Bool) (l : List Char) : trimByP p l <:+: l := by
  unfold trimByP
  have h1 : (l.dropWhile p).reverse.dropWhile p <:+ (l.dropWhile p).reverse :=
    List.dropWhile_suffix p
  have h2 : ((l.dropWhile p).reverse.dropWhile p).reverse <+:
      (l.dropWhile p).reverse.reverse := by
    rw [List.reverse_prefix]
    exact h1
  rw [List.reverse_reverse] at h2
  exact h2.isInfix.trans (List.dropWhile_suffix p).isInfix

theorem jsTrim_idem (s : String) : jsTrim (jsTrim s) = jsTrim s := by
  apply String.ext
  show trimByP wsChar (trimByP wsChar s.data) = trimByP wsChar s.data
  exact trimByP_idem wsChar s.data


theorem normalizeText_idem (s : String) :
    normalizeText (normalizeText s) = normalizeText s := by
  unfold normalizeText
  have hlower : jsToLower (jsTrim (jsToLower s)) = jsTrim (jsToLower s) := by
    apply String.ext
    show lowerList (trimByP wsChar (lowerList s.data)) = trimByP wsChar (lowerList s.data)
    refine lowerList_fix ?_
    intro x hx
    have hx2 : x ∈ lowerList s.data := (trimByP_within wsChar (lowerList s.data)).subset hx
    rcases List.mem_map.mp hx2 with ⟨y, _, hy⟩
    rw [← hy]
    exact lowerChar_idem y
  rw [hlower]
  exact jsTrim_idem (jsToLower s)

-- ---------------------------------------------------------------------------
-- C7: the run-collapsing `squeeze` and slugify
-- ---------------------------------------------------------------------------

theorem squeeze_subset (t : Char) : ∀ (l : List Char) (x : Char),
    x ∈ squeeze t l → x ∈ l := by
  intro l
  induction l with
  | nil => intro x hx; simp [squeeze] at hx
  | cons a as ih =>
    intro x hx
    cases as with
    | nil => simpa [squeeze] using hx
    | cons b r =>
      rw [squeeze] at hx
      split at hx
      · exact List.mem_cons_of_mem a (ih x hx)
      · rcases List.mem_cons.mp hx with h | h
        · exact h ▸ List.mem_cons_self a (b :: r)
        · exact List.mem_cons_of_mem a (ih x h)

theorem squeeze_cons_head (t : Char) : ∀ (l : List Char) (b : Char),
    ∃ tl, squeeze t (b :: l) = b :: tl := by
  intro l
  induction l with
  | nil => intro b; exact ⟨[], rfl⟩
  | cons c r ih =>
    intro b
    rw [squeeze]
    split
    next hc =>
      rcases ih c with ⟨tl, htl⟩
      rw [htl]
      exact ⟨tl, by rw [hc.1, hc.2]⟩
    next => exact ⟨squeeze t (c :: r), rfl⟩

theorem squeeze_chain (t : Char) : ∀ l : List Char,
    List.Chain' (fun a b => ¬ (a = t ∧ b = t)) (squeeze t l) := by
  intro l
  induction l with
  | nil => simp [squeeze]
  | cons a as ih =>
    cases as with
    | nil => simp [squeeze]
    | cons b r =>
      rw [squeeze]
      split
      · exact ih
      next hcond =>
        rcases squeeze_cons_head t r b with ⟨tl, htl⟩
        rw [htl]
        rw [htl] at ih
        exact List.Chain'.cons hcond ih

theorem squeeze_eq_self (t : Char) : ∀ l : List Char,
    List.Chain' (fun a b => ¬ (a = t ∧ b = t)) l → squeeze t l = l := by
  intro l
  induction l with
  | nil => intro _; rfl
  | cons a as ih =>
    intro hchain
    cases as with
    | nil => rfl
    | cons b r =>
      rw [squeeze]
      rw [if_neg (List.chain'_cons.mp hchain).1]
      rw [ih (List.chain'_cons.mp hchain).2]

theorem slugCh_toNat {x : Char} (h : slugCh x = true) :
    (97 ≤ x.toNat ∧ x.toNat ≤ 122) ∨ (48 ≤ x.toNat ∧ x.toNat ≤ 57) := by
  simpa [slugCh] using h

-- every character of a slug is a lowercase alphanumeric or a dash.
theorem slug_chars (s : String) :
    ∀ x ∈ (slugify s).data, slugCh x = true ∨ x = '-' := by
  intro x hx
  have h1 : x ∈ dashRuns (trimList (lowerList s.data)) := by
    have := (trimByP_within (fun c => c = '-') (dashRuns (trimList (lowerList s.data)))).subset
    exact this hx
  have h2 : x ∈ (trimList (lowerList s.data)).map
      (fun c => if slugCh c then c else '-') := by
    exact squeeze_subset '-' _ x h1
  rcases List.mem_map.mp h2 with ⟨y, _, hy⟩
  by_cases hsy : slugCh y
  · left
    rw [← hy, if_pos hsy]
    exact hsy
  · right
    rw [← hy, if_neg hsy]

theorem slug_not_upper {x : Char} (h : slugCh x = true ∨ x = '-') :
    lowerChar x = x := by
  refine lowerChar_eq_self ?_
  rcases h with h | h
  · rcases slugCh_toNat h with ⟨h1, h2⟩ | ⟨h1, h2⟩ <;> omega
  · subst h
    decide

theorem slug_not_ws {x : Char} (h : slugCh x = true ∨ x = '-') : wsChar x = false := by
  rcases h with h | h
  · rcases slugCh_toNat h with ⟨h1, h2⟩ | ⟨h1, h2⟩ <;>
    · have hsp : x ≠ ' ' := fun he => absurd (he ▸ h1) (by decide)
      have hta : x ≠ '\t' := fun he => absurd (he ▸ h1) (by decide)
      have hnl : x ≠ '\n' := fun he => absurd (he ▸ h1) (by decide)
      have hcr : x ≠ '\r' := fun he => absurd (he ▸ h1) (by decide)
      simp [wsChar, hsp, hta, hnl, hcr]
  · subst h
    decide

theorem slug_chain (s : String) :
    List.Chain' (fun a b => ¬ (a = '-' ∧ b = '-')) (slugify s).data := by
  have h1 : List.Chain' (fun a b => ¬ (a = '-' ∧ b = '-'))
      (dashRuns (trimList (lowerList s.data))) := squeeze_chain '-' _
  exact h1.infix (trimByP_within (fun c => c = '-') _)

theorem slug_data (x : String) :
    (slugify x).data = stripDashes (dashRuns (trimList (lowerList x.data))) := rfl

theorem slugify_idem (s : String) : slugify (slugify s) = slugify s := by
  apply String.ext
  rw [slug_data (slugify s)]
  have hlower : lowerList (slugify s).data = (slugify s).data :=
    lowerList_fix (fun x hx => slug_not_upper (slug_chars s x hx))
  rw [hlower]
  have htrim : trimList (slugify s).data = (slugify s).data := by
    rw [trimList_eq_trimByP]
    refine trimByP_eq_self wsChar _ ?_ ?_
    · intro x hx
      exact slug_not_ws (slug_chars s x (List.mem_of_mem_head? hx))
    · intro x hx
      exact slug_not_ws (slug_chars s x (List.mem_of_mem_getLast? hx))
  rw [htrim]
  have hruns : dashRuns (slugify s).data = (slugify s).data := by
    unfold dashRuns
    have hmap : ((slugify s).data).map (fun c => if slugCh c then c else '-') =
        (slugify s).data := by
      have := List.map_congr_left (l := (slugify s).data)
        (f := fun c => if slugCh c then c else '-') (g := id) ?_
      · rw [this, List.map_id]
      · intro x hx
        rcases slug_chars s x hx with h | h
        · simp [h]
        · simp [h]
    rw [hmap]
    exact squeeze_eq_self '-' _ (slug_chain s)
  rw [hruns]
  rw [stripDashes_eq_trimByP]
  refine trimByP_eq_self (fun c => c = '-') _ ?_ ?_
  · intro x hx
    exact trimByP_head (fun c => c = '-') _ x hx
  · intro x hx
    exact trimByP_getLast (fun c => c = '-') _ x hx


-- ---------------------------------------------------------------------------
-- C7: idempotence of the coerce-then-filter collections
-- ---------------------------------------------------------------------------

theorem mapFilter_idem {α : Type} (f g : α → α) (p : α → Bool) (l : List α)
    (hfix : ∀ x, g (f x) = f x) :
    (((l.map f).filter p).map g).filter p = (l.map f).filter p := by
  have hcong : ∀ y ∈ (l.map f).filter p, g y = id y := by
    intro y hy
    rcases List.mem_map.mp (List.mem_filter.mp hy).1 with ⟨x, _, hx⟩
    rw [← hx]
    exact hfix x
  rw [List.map_congr_left hcong, List.map_id]
  exact List.filter_eq_self.mpr (fun a ha => (List.mem_filter.mp ha).2)

theorem isRole_ite (r : String) : isRole (if isRole r then r else "user") = true := by
  split
  next h => exact h
  next => decide

theorem isUserStatus_ite (r : String) :
    isUserStatus (if isUserStatus r then r else "active") = true := by
  split
  next h => exact h
  next => decide

theorem isReportStatus_ite (r : String) :
    isReportStatus (if isReportStatus r then r else "open") = true := by
  split
  next h => exact h
  next => decide

theorem isReportTarget_ite (r : String) :
    isReportTarget (if isReportTarget r then r else "post") = true := by
  split
  next h => exact h
  next => decide

theorem isReaction_ite (r : String) :
    isReaction (if isReaction r then r else "like") = true := by
  split
  next h => exact h
  next => decide

theorem media_ite (m : String) :
    (["none", "image", "video"] : List String).contains
      (if (["none", "image", "video"] : List String).contains m then m else "none") = true := by
  split
  next h => exact h
  next => decide

theorem migrateLike_fix {now1 : String} (h : now1 ≠ "") (now2 : String) (x : LikeRow) :
    migrateLike now2 (migrateLike now1 x) = migrateLike now1 x := by
  simp only [migrateLike]
  rw [LikeRow.mk.injEq]
  exact ⟨rfl, rfl, rfl, orS_stable h x.created_at now2⟩

theorem migrateLikes_idem {now1 : String} (h : now1 ≠ "") (now2 : String)
    (l : List LikeRow) : migrateLikes now2 (migrateLikes now1 l) = migrateLikes now1 l :=
  mapFilter_idem (migrateLike now1) (migrateLike now2) _ l (migrateLike_fix h now2)

theorem migrateBookmark_fix {now1 : String} (h : now1 ≠ "") (now2 : String)
    (x : BookmarkRow) : migrateBookmark now2 (migrateBookmark now1 x) = migrateBookmark now1 x := by
  simp only [migrateBookmark]
  rw [BookmarkRow.mk.injEq]
  exact ⟨rfl, rfl, rfl, orS_stable h x.created_at now2⟩

theorem migrateBookmarks_idem {now1 : String} (h : now1 ≠ "") (now2 : String)
    (l : List BookmarkRow) :
    migrateBookmarks now2 (migrateBookmarks now1 l) = migrateBookmarks now1 l :=
  mapFilter_idem (migrateBookmark now1) (migrateBookmark now2) _ l (migrateBookmark_fix h now2)

theorem migrateReaction_fix {now1 : String} (h : now1 ≠ "") (now2 : String)
    (x : CommentReaction) :
    migrateReaction now2 (migrateReaction now1 x) = migrateReaction now1 x := by
  simp only [migrateReaction]
  rw [CommentReaction.mk.injEq]
  exact ⟨rfl, rfl, rfl, if_pos (isReaction_ite x.reaction_type),
    orS_stable h x.created_at now2⟩

theorem migrateReactions_idem {now1 : String} (h : now1 ≠ "") (now2 : String)
    (l : List CommentReaction) :
    migrateReactions now2 (migrateReactions now1 l) = migrateReactions now1 l :=
  mapFilter_idem (migrateReaction now1) (migrateReaction now2) _ l (migrateReaction_fix h now2)

theorem migratePostTags_idem (l : List PostTag) :
    migratePostTags (migratePostTags l) = migratePostTags l :=
  mapFilter_idem _ _ _ l (fun _ => rfl)

theorem migrateReport_fix {now1 : String} (h : now1 ≠ "") (now2 : String) (x : Report) :
    migrateReport now2 (migrateReport now1 x) = migrateReport now1 x := by
  simp only [migrateReport]
  rw [Report.mk.injEq]
  refine ⟨rfl, rfl, if_pos (isReportTarget_ite x.target_type), rfl,
    orS_absorb x.reason_code "other", orS_empty_right _,
    if_pos (isReportStatus_ite x.status), orOI_idem _,
    orS_stable h x.created_at now2, orOS_idem _⟩

theorem migrateReports_idem {now1 : String} (h : now1 ≠ "") (now2 : String)
    (l : List Report) :
    migrateReports now2 (migrateReports now1 l) = migrateReports now1 l :=
  mapFilter_idem (migrateReport now1) (migrateReport now2) _ l (migrateReport_fix h now2)

theorem migrateAction_fix {now1 : String} (h : now1 ≠ "") (now2 : String)
    (x : ModerationAction) :
    migrateAction now2 (migrateAction now1 x) = migrateAction now1 x := by
  simp only [migrateAction]
  rw [ModerationAction.mk.injEq]
  exact ⟨rfl, rfl, orS_absorb x.action_type "unknown", orS_absorb x.target_type "unknown",
    rfl, orS_empty_right _, orS_stable h x.created_at now2⟩

theorem migrateActions_idem {now1 : String} (h : now1 ≠ "") (now2 : String)
    (l : List ModerationAction) :
    migrateActions now2 (migrateActions now1 l) = migrateActions now1 l :=
  mapFilter_idem (migrateAction now1) (migrateAction now2) _ l (migrateAction_fix h now2)


-- ---------------------------------------------------------------------------
-- C7: user and post migration is idempotent
-- ---------------------------------------------------------------------------

theorem migrateUser_fix {now1 : String} (h : now1 ≠ "") (now2 : String) (u : User) :
    migrateUser now2 (migrateUser now1 u) = migrateUser now1 u := by
  simp only [migrateUser]
  rw [User.mk.injEq]
  refine ⟨rfl, ?_, ?_, orS_absorb _ "", orS_absorb _ "", orS_absorb _ "",
    orS_stable h u.created_at now2, if_pos (isRole_ite u.role),
    if_pos (isUserStatus_ite u.status), rfl, orOS_idem _, orOS_idem _,
    orOS_idem _, orOS_idem _⟩
  · rw [orS_empty_right]
    exact jsTrim_idem _
  · rw [orS_empty_right]
    exact normalizeText_idem _

theorem migrateUser_admin_fix {now1 : String} (h : now1 ≠ "") (now2 : String) (u : User) :
    migrateUser now2 { migrateUser now1 u with role := "admin" } =
      { migrateUser now1 u with role := "admin" } := by
  simp only [migrateUser]
  rw [User.mk.injEq]
  refine ⟨rfl, ?_, ?_, orS_absorb _ "", orS_absorb _ "", orS_absorb _ "",
    orS_stable h u.created_at now2, if_pos (by decide : isRole "admin" = true),
    if_pos (isUserStatus_ite u.status), rfl, orOS_idem _, orOS_idem _,
    orOS_idem _, orOS_idem _⟩
  · rw [orS_empty_right]
    exact jsTrim_idem _
  · rw [orS_empty_right]
    exact normalizeText_idem _

theorem migrateUsers_idem {now1 : String} (h : now1 ≠ "") (now2 : String)
    (us : List User) : migrateUsers now2 (migrateUsers now1 us) = migrateUsers now1 us := by
  cases us with
  | nil => rfl
  | cons u0 rest =>
    simp only [migrateUsers]
    by_cases hA : ((u0 :: rest).any (fun u => u.role == "admin")) = true
    · rw [if_pos hA]
      have hA2 : ((migrateUser now1 u0 :: rest.map (migrateUser now1)).any
          (fun u => u.role == "admin")) = true := by
        rcases List.any_eq_true.mp hA with ⟨u, hu, hru⟩
        have hru' : u.role = "admin" := by simpa using hru
        rcases List.mem_cons.mp hu with hu0 | hur
        · subst hu0
          refine List.any_eq_true.mpr ⟨migrateUser now1 u, List.mem_cons_self _ _, ?_⟩
          show ((migrateUser now1 u).role == "admin") = true
          simp [migrateUser, hru']
          decide
        · refine List.any_eq_true.mpr ⟨migrateUser now1 u,
            List.mem_cons_of_mem _ (List.mem_map_of_mem (migrateUser now1) hur), ?_⟩
          show ((migrateUser now1 u).role == "admin") = true
          simp [migrateUser, hru']
          decide
      rw [if_pos hA2, migrateUser_fix h now2 u0]
      congr 1
      rw [List.map_map]
      exact List.map_congr_left (fun u _ => migrateUser_fix h now2 u)
    · rw [if_neg hA]
      have hA2 : ((({ migrateUser now1 u0 with role := "admin" }) ::
          rest.map (migrateUser now1)).any (fun u => u.role == "admin")) = true := by
        refine List.any_eq_true.mpr ⟨{ migrateUser now1 u0 with role := "admin" },
          List.mem_cons_self _ _, ?_⟩
        simp
      rw [if_pos hA2, migrateUser_admin_fix h now2 u0]
      congr 1
      rw [List.map_map]
      exact List.map_congr_left (fun u _ => migrateUser_fix h now2 u)

theorem migratePost_fix {now1 : String} (h : now1 ≠ "") (now2 : String) (p : Post) :
    migratePost now2 (migratePost now1 p) = migratePost now1 p := by
  simp only [migratePost]
  rw [orS_absorb p.markdown_body (orS (orS p.body "") "")]
  rw [Post.mk.injEq]
  refine ⟨rfl, rfl, rfl, ?_, rfl, rfl, orS_empty_right _, orS_absorb _ _, orI_absorb _ _,
    orS_empty_right _, if_pos (media_ite p.media_type), rfl, orS_empty_right _,
    orS_stable h p.created_at now2⟩
  rw [orS_empty_right]
  exact jsTrim_idem _

theorem migratePosts_idem {now1 : String} (h : now1 ≠ "") (now2 : String)
    (ps : List Post) :
    (ps.map (migratePost now1)).map (migratePost now2) = ps.map (migratePost now1) := by
  rw [List.map_map]
  exact List.map_congr_left (fun p _ => migratePost_fix h now2 p)


-- ---------------------------------------------------------------------------
-- C7: comment migration is idempotent
-- ---------------------------------------------------------------------------

theorem padId_ne_empty (v : Int) : padId v ≠ "" := by
  intro he
  have hd : (List.replicate (10 - (toString (orI v 0)).data.length) '0' ++
      (toString (orI v 0)).data) = [] := congrArg String.data he
  have hlen := congrArg List.length hd
  simp [List.length_append] at hlen
  omega

theorem appendDot_ne_empty (a b : String) : a ++ "." ++ b ≠ "" := by
  intro he
  have hd := congrArg String.data he
  rw [String.data_append, String.data_append] at hd
  have hlen := congrArg List.length hd
  simp [List.length_append] at hlen

theorem migrateCommentB_frame (seen : List Int) (c : CommentRow) :
    (migrateCommentB seen c).id = c.id ∧
    (migrateCommentB seen c).user_id = c.user_id ∧
    (migrateCommentB seen c).post_id = c.post_id ∧
    (migrateCommentB seen c).body = c.body ∧
    (migrateCommentB seen c).is_hidden = c.is_hidden ∧
    (migrateCommentB seen c).hidden_reason = c.hidden_reason ∧
    (migrateCommentB seen c).created_at = c.created_at := by
  cases hp : c.parent_comment_id with
  | none =>
    have hc1 : (match c.parent_comment_id with
        | some pid =>
          if pid ≠ 0 ∧ ¬ seen.contains pid = true then
            { c with parent_comment_id := none, depth := 0 }
          else c
        | none => c) = c := by rw [hp]
    simp only [migrateCommentB]
    rw [hc1]
    split <;> exact ⟨rfl, rfl, rfl, rfl, rfl, rfl, rfl⟩
  | some q =>
    by_cases hd : q ≠ 0 ∧ ¬ seen.contains q = true
    · have hc1 : (match c.parent_comment_id with
          | some pid =>
            if pid ≠ 0 ∧ ¬ seen.contains pid = true then
              { c with parent_comment_id := none, depth := 0 }
            else c
          | none => c) = { c with parent_comment_id := none, depth := 0 } := by
        rw [hp]
        exact if_pos hd
      simp only [migrateCommentB]
      rw [hc1]
      split <;> exact ⟨rfl, rfl, rfl, rfl, rfl, rfl, rfl⟩
    · have hc1 : (match c.parent_comment_id with
          | some pid =>
            if pid ≠ 0 ∧ ¬ seen.contains pid = true then
              { c with parent_comment_id := none, depth := 0 }
            else c
          | none => c) = c := by
        rw [hp]
        exact if_neg hd
      simp only [migrateCommentB]
      rw [hc1]
      split <;> exact ⟨rfl, rfl, rfl, rfl, rfl, rfl, rfl⟩

theorem migrateCommentB_parent_post (seen : List Int) (c : CommentRow) :
    ∀ pid, (migrateCommentB seen c).parent_comment_id = some pid →
      pid = 0 ∨ seen.contains pid = true := by
  intro pid hpid
  cases hp : c.parent_comment_id with
  | none =>
    have hc1 : (match c.parent_comment_id with
        | some pid =>
          if pid ≠ 0 ∧ ¬ seen.contains pid = true then
            { c with parent_comment_id := none, depth := 0 }
          else c
        | none => c) = c := by rw [hp]
    simp only [migrateCommentB] at hpid
    rw [hc1] at hpid
    split at hpid <;>
    · have h2 : c.parent_comment_id = some pid := hpid
      rw [hp] at h2
      cases h2
  | some q =>
    by_cases hd : q ≠ 0 ∧ ¬ seen.contains q = true
    · have hc1 : (match c.parent_comment_id with
          | some pid =>
            if pid ≠ 0 ∧ ¬ seen.contains pid = true then
              { c with parent_comment_id := none, depth := 0 }
            else c
          | none => c) = { c with parent_comment_id := none, depth := 0 } := by
        rw [hp]
        exact if_pos hd
      simp only [migrateCommentB] at hpid
      rw [hc1] at hpid
      split at hpid <;>
      · have h2 : (none : Option Int) = some pid := hpid
        cases h2
    · have hc1 : (match c.parent_comment_id with
          | some pid =>
            if pid ≠ 0 ∧ ¬ seen.contains pid = true then
              { c with parent_comment_id := none, depth := 0 }
            else c
          | none => c) = c := by
        rw [hp]
        exact if_neg hd
      simp only [migrateCommentB] at hpid
      rw [hc1] at hpid
      have h2 : c.parent_comment_id = some pid := by
        split at hpid
        · exact hpid
        · exact hpid
      rw [hp] at h2
      injection h2 with h3
      subst h3
      by_cases hq0 : q = 0
      · exact Or.inl hq0
      · cases hcq : seen.contains q with
        | true => exact Or.inr rfl
        | false =>
          exfalso
          exact hd ⟨hq0, fun hh => by rw [hcq] at hh; cases hh⟩

theorem migrateCommentB_path_ne (seen : List Int) (c : CommentRow) :
    (migrateCommentB seen c).path ≠ "" := by
  cases hp : c.parent_comment_id with
  | none =>
    have hc1 : (match c.parent_comment_id with
        | some pid =>
          if pid ≠ 0 ∧ ¬ seen.contains pid = true then
            { c with parent_comment_id := none, depth := 0 }
          else c
        | none => c) = c := by rw [hp]
    simp only [migrateCommentB]
    rw [hc1]
    by_cases hpe : c.path = ""
    · rw [if_pos hpe, hp]
      exact padId_ne_empty _
    · rw [if_neg hpe]
      exact hpe
  | some q =>
    by_cases hd : q ≠ 0 ∧ ¬ seen.contains q = true
    · have hc1 : (match c.parent_comment_id with
          | some pid =>
            if pid ≠ 0 ∧ ¬ seen.contains pid = true then
              { c with parent_comment_id := none, depth := 0 }
            else c
          | none => c) = { c with parent_comment_id := none, depth := 0 } := by
        rw [hp]
        exact if_pos hd
      simp only [migrateCommentB]
      rw [hc1]
      by_cases hpe : c.path = ""
      · have hpe1 : ({ c with parent_comment_id := none, depth := 0 } : CommentRow).path =
          "" := hpe
        rw [if_pos hpe1]
        exact padId_ne_empty _
      · have hpe1 : ¬ ({ c with parent_comment_id := none, depth := 0 } : CommentRow).path =
          "" := hpe
        rw [if_neg hpe1]
        exact hpe
    · have hc1 : (match c.parent_comment_id with
          | some pid =>
            if pid ≠ 0 ∧ ¬ seen.contains pid = true then
              { c with parent_comment_id := none, depth := 0 }
            else c
          | none => c) = c := by
        rw [hp]
        exact if_neg hd
      simp only [migrateCommentB]
      rw [hc1]
      by_cases hpe : c.path = ""
      · rw [if_pos hpe, hp]
        show (if q ≠ 0 then padId q ++ "." ++ padId c.id else padId c.id) ≠ ""
        by_cases hq : q ≠ 0
        · rw [if_pos hq]
          exact appendDot_ne_empty _ _
        · rw [if_neg hq]
          exact padId_ne_empty _
      · rw [if_neg hpe]
        exact hpe

theorem migrateCommentB_fix (seen : List Int) (y : CommentRow)
    (hparent : ∀ pid, y.parent_comment_id = some pid →
      (pid = 0 ∨ seen.contains pid = true))
    (hpath : y.path ≠ "") : migrateCommentB seen y = y := by
  cases hp : y.parent_comment_id with
  | none =>
    have hc1 : (match y.parent_comment_id with
        | some pid =>
          if pid ≠ 0 ∧ ¬ seen.contains pid = true then
            { y with parent_comment_id := none, depth := 0 }
          else y
        | none => y) = y := by rw [hp]
    simp only [migrateCommentB]
    rw [hc1, if_neg hpath]
  | some q =>
    have hd : ¬ (q ≠ 0 ∧ ¬ seen.contains q = true) := by
      rintro ⟨h1, h2⟩
      rcases hparent q hp with h0 | hc
      · exact h1 h0
      · exact h2 hc
    have hc1 : (match y.parent_comment_id with
        | some pid =>
          if pid ≠ 0 ∧ ¬ seen.contains pid = true then
            { y with parent_comment_id := none, depth := 0 }
          else y
        | none => y) = y := by
      rw [hp]
      exact if_neg hd
    simp only [migrateCommentB]
    rw [hc1, if_neg hpath]

theorem migrateCommentA_fix_general (now2 : String) (y : CommentRow)
    (h1 : orOI y.parent_comment_id = y.parent_comment_id)
    (h2 : orS y.created_at now2 = y.created_at) :
    migrateCommentA now2 y = y := by
  simp only [migrateCommentA]
  rw [h1, h2, orS_empty_right, orS_empty_right, orS_empty_right]
  rfl

theorem migrateComment_fix {now1 : String} (h : now1 ≠ "") (now2 : String)
    (seen : List Int) (x : CommentRow) :
    migrateCommentA now2 (migrateCommentB seen (migrateCommentA now1 x)) =
      migrateCommentB seen (migrateCommentA now1 x) := by
  refine migrateCommentA_fix_general now2 _ ?_ ?_
  · rcases migrateCommentB_parent_sub seen (migrateCommentA now1 x) with hs | hs
    · rw [hs]
      show orOI (orOI x.parent_comment_id) = orOI x.parent_comment_id
      exact orOI_idem _
    · rw [hs]
      rfl
  · have hcre : (migrateCommentB seen (migrateCommentA now1 x)).created_at =
        orS x.created_at now1 :=
      (migrateCommentB_frame seen (migrateCommentA now1 x)).2.2.2.2.2.2
    rw [hcre]
    exact orS_stable h x.created_at now2

theorem migrateComments_idem {now1 : String} (h : now1 ≠ "") (now2 : String)
    (cs : List CommentRow) :
    migrateComments now2 (migrateComments now1 cs) = migrateComments now1 cs := by
  simp only [migrateComments]
  set S1 := cs.map (migrateCommentA now1) with hS1
  set seen1 := S1.map (fun c => c.id) with hseen1
  set out := S1.map (migrateCommentB seen1) with hout
  have hA2 : out.map (migrateCommentA now2) = out := by
    have hcong : ∀ y ∈ out, migrateCommentA now2 y = id y := by
      intro y hy
      rcases List.mem_map.mp hy with ⟨c', hc', hyc⟩
      rcases List.mem_map.mp hc' with ⟨x, _, hxc⟩
      rw [← hyc, ← hxc]
      exact migrateComment_fix h now2 seen1 x
    rw [List.map_congr_left hcong, List.map_id]
  rw [hA2]
  have hseen : out.map (fun c => c.id) = seen1 := by
    rw [hout, List.map_map, hseen1]
    exact List.map_congr_left (fun y _ => (migrateCommentB_frame seen1 y).1)
  rw [hseen]
  have hcong2 : ∀ y ∈ out, migrateCommentB seen1 y = id y := by
    intro y hy
    rcases List.mem_map.mp hy with ⟨c', hc', hyc⟩
    refine migrateCommentB_fix seen1 y ?_ ?_
    · intro pid hpid
      rw [← hyc] at hpid
      have := migrateCommentB_parent_post seen1 c' pid hpid
      exact this
    · rw [← hyc]
      exact migrateCommentB_path_ne seen1 c'
  rw [List.map_congr_left hcong2, List.map_id]


-- ---------------------------------------------------------------------------
-- C7: tag and category migration are idempotent
-- ---------------------------------------------------------------------------

theorem orS_empty_left (b : String) : orS "" b = b := by
  simp [orS]

theorem orS_self (a : String) : orS a a = a := by
  unfold orS
  split <;> rfl

theorem orS_ne_empty_right {b : String} (h : b ≠ "") (a : String) : orS a b ≠ "" := by
  unfold orS
  split
  · exact h
  next ha => exact ha

theorem append_ne_empty_left {a : String} (h : a ≠ "") (b : String) : a ++ b ≠ "" := by
  intro he
  have hd := congrArg String.data he
  rw [String.data_append] at hd
  have ha : a.data = [] := (List.append_eq_nil.mp hd).1
  exact h (String.ext ha)

theorem jsTrim_slugify (s : String) : jsTrim (slugify s) = slugify s := by
  apply String.ext
  show trimByP wsChar (slugify s).data = (slugify s).data
  refine trimByP_eq_self wsChar _ ?_ ?_
  · intro x hx
    exact slug_not_ws (slug_chars s x (List.mem_of_mem_head? hx))
  · intro x hx
    exact slug_not_ws (slug_chars s x (List.mem_of_mem_getLast? hx))

theorem migrateTag_fix {now1 : String} (h : now1 ≠ "") (now2 : String) (x : Tag)
    (hs : (migrateTag now1 x).slug ≠ "") :
    migrateTag now2 (migrateTag now1 x) = migrateTag now1 x := by
  have hs2 : slugify (orS x.slug (jsTrim (orS x.name ""))) ≠ "" := hs
  simp only [migrateTag]
  set n1 := jsTrim (orS x.name "") with hn1
  set s1 := slugify (orS x.slug n1) with hs1d
  have hjt : jsTrim n1 = n1 := by
    rw [hn1]
    exact jsTrim_idem _
  have hjts : jsTrim s1 = s1 := by
    rw [hs1d]
    exact jsTrim_slugify _
  have hsl : slugify s1 = s1 := by
    rw [hs1d]
    exact slugify_idem _
  rw [Tag.mk.injEq]
  refine ⟨rfl, ?_, ?_, orS_stable h _ _⟩
  · rw [orS_empty_right (orS n1 s1)]
    by_cases hn : n1 = ""
    · rw [hn, orS_empty_left, hjts, orS_self, hsl, orS_self]
    · rw [orS_ne_empty hn, hjt]
      exact orS_ne_empty hn _
  · rw [orS_empty_right (orS n1 s1)]
    by_cases hn : n1 = ""
    · rw [hn, orS_empty_left, hjts, orS_self]
      exact hsl
    · rw [orS_ne_empty hn, hjt, orS_ne_empty hs2]
      exact hsl

theorem dedupeTagGo_subset : ∀ (l : List Tag) (seen : List String) (t : Tag),
    t ∈ dedupeTagGo seen l → t ∈ l := by
  intro l
  induction l with
  | nil =>
    intro seen t ht
    simp [dedupeTagGo] at ht
  | cons a as ih =>
    intro seen t ht
    rw [dedupeTagGo] at ht
    split at ht
    · exact List.mem_cons_of_mem a (ih seen t ht)
    · rcases List.mem_cons.mp ht with h | h
      · exact h ▸ List.mem_cons_self a as
      · exact List.mem_cons_of_mem a (ih (a.slug :: seen) t h)

theorem dedupeTagGo_props : ∀ (l : List Tag) (seen : List String) (t : Tag),
    t ∈ dedupeTagGo seen l →
      t.id ≠ 0 ∧ t.slug ≠ "" ∧ seen.contains t.slug = false := by
  intro l
  induction l with
  | nil =>
    intro seen t ht
    simp [dedupeTagGo] at ht
  | cons a as ih =>
    intro seen t ht
    rw [dedupeTagGo] at ht
    split at ht
    · exact ih seen t ht
    next hcond =>
      push_neg at hcond
      rcases List.mem_cons.mp ht with h | h
      · subst h
        refine ⟨hcond.1, hcond.2.1, ?_⟩
        cases hb : seen.contains t.slug with
        | false => rfl
        | true => exact absurd hb hcond.2.2
      · have h3 := ih (a.slug :: seen) t h
        refine ⟨h3.1, h3.2.1, ?_⟩
        have hc := h3.2.2
        simp [List.contains_cons] at hc
        simpa using hc.2

theorem dedupeTagGo_pairwise : ∀ (l : List Tag) (seen : List String),
    (dedupeTagGo seen l).Pairwise (fun a b => a.slug ≠ b.slug) := by
  intro l
  induction l with
  | nil =>
    intro seen
    simp [dedupeTagGo]
  | cons a as ih =>
    intro seen
    rw [dedupeTagGo]
    split
    · exact ih seen
    · refine List.Pairwise.cons ?_ (ih (a.slug :: seen))
      intro b hb he
      have hc := (dedupeTagGo_props as (a.slug :: seen) b hb).2.2
      rw [← he] at hc
      simp [List.contains_cons] at hc

theorem dedupeTagGo_eq_self : ∀ (l : List Tag) (seen : List String),
    (∀ t ∈ l, t.id ≠ 0 ∧ t.slug ≠ "" ∧ seen.contains t.slug = false) →
    l.Pairwise (fun a b => a.slug ≠ b.slug) →
    dedupeTagGo seen l = l := by
  intro l
  induction l with
  | nil =>
    intro seen _ _
    rfl
  | cons a as ih =>
    intro seen hall hpw
    have ha := hall a (List.mem_cons_self a as)
    have hpw2 := List.pairwise_cons.mp hpw
    have hcond : ¬ (a.id = 0 ∨ a.slug = "" ∨ seen.contains a.slug = true) := by
      rintro (h0 | h0 | h0)
      · exact ha.1 h0
      · exact ha.2.1 h0
      · rw [ha.2.2] at h0
        cases h0
    have hsub : ∀ t ∈ as, t.id ≠ 0 ∧ t.slug ≠ "" ∧
        (a.slug :: seen).contains t.slug = false := by
      intro t ht
      have h3 := hall t (List.mem_cons_of_mem a ht)
      have hne : ¬ t.slug = a.slug := fun he => hpw2.1 t ht he.symm
      have h4 : t.slug ∉ seen := by simpa using h3.2.2
      refine ⟨h3.1, h3.2.1, ?_⟩
      simp [List.contains_cons, hne, h4]
    rw [dedupeTagGo, if_neg hcond, ih (a.slug :: seen) hsub hpw2.2]

theorem migrateTags_idem {now1 : String} (h : now1 ≠ "") (now2 : String)
    (ts : List Tag) :
    migrateTags now2 (migrateTags now1 ts) = migrateTags now1 ts := by
  simp only [migrateTags]
  set L1 := ts.map (migrateTag now1) with hL1
  set D1 := dedupeTagGo [] L1 with hD1
  have hmap : D1.map (migrateTag now2) = D1 := by
    have hcong : ∀ t ∈ D1, migrateTag now2 t = id t := by
      intro t ht
      have hprops := dedupeTagGo_props L1 [] t (hD1 ▸ ht)
      have hsub := dedupeTagGo_subset L1 [] t (hD1 ▸ ht)
      rcases List.mem_map.mp (hL1 ▸ hsub) with ⟨x, _, hx⟩
      rw [← hx]
      refine migrateTag_fix h now2 x ?_
      rw [hx]
      exact hprops.2.1
    rw [List.map_congr_left hcong, List.map_id]
  rw [hmap]
  refine dedupeTagGo_eq_self D1 [] ?_ ?_
  · intro t ht
    have hprops := dedupeTagGo_props L1 [] t (hD1 ▸ ht)
    exact ⟨hprops.1, hprops.2.1, rfl⟩
  · rw [hD1]
    exact dedupeTagGo_pairwise L1 []

theorem mapIdxFrom_mem {α β : Type} (f : Nat → α → β) :
    ∀ (l : List α) (n : Nat) (y : β), y ∈ mapIdxFrom f n l →
      ∃ i x, x ∈ l ∧ y = f i x := by
  intro l
  induction l with
  | nil =>
    intro n y hy
    simp [mapIdxFrom] at hy
  | cons a as ih =>
    intro n y hy
    rw [mapIdxFrom] at hy
    rcases List.mem_cons.mp hy with h | h
    · exact ⟨n, a, List.mem_cons_self a as, h⟩
    · rcases ih (n + 1) y h with ⟨i, x, hx, hyx⟩
      exact ⟨i, x, List.mem_cons_of_mem a hx, hyx⟩

theorem mapIdxFrom_eq_self {α : Type} (f : Nat → α → α) :
    ∀ (l : List α) (n : Nat), (∀ i x, x ∈ l → f i x = x) →
      mapIdxFrom f n l = l := by
  intro l
  induction l with
  | nil =>
    intro n _
    rfl
  | cons a as ih =>
    intro n hall
    rw [mapIdxFrom, hall n a (List.mem_cons_self a as),
      ih (n + 1) (fun i x hx => hall i x (List.mem_cons_of_mem a hx))]

theorem migrateCategory_fix (j i : Nat) (x : Category)
    (hs : (migrateCategory i x).slug ≠ "") :
    migrateCategory j (migrateCategory i x) = migrateCategory i x := by
  have hs2 : slugify (orS x.slug (orS x.name ("category-" ++ toString (i + 1)))) ≠ "" := hs
  simp only [migrateCategory]
  rw [Category.mk.injEq]
  refine ⟨rfl, ?_, ?_, ?_, ?_⟩
  · have hne : orS x.name ("Category " ++ toString (i + 1)) ≠ "" :=
      orS_ne_empty_right (append_ne_empty_left (by decide) _) _
    exact orS_ne_empty hne _
  · rw [orS_ne_empty hs2]
    exact slugify_idem _
  · exact orS_empty_right _
  · have hnz : ((i : Int) + 1) ≠ 0 := by omega
    exact orI_of_ne (orI_ne_zero hnz x.sort_order) _

theorem dedupeCatGo_subset : ∀ (l : List Category) (seen : List String) (t : Category),
    t ∈ dedupeCatGo seen l → t ∈ l := by
  intro l
  induction l with
  | nil =>
    intro seen t ht
    simp [dedupeCatGo] at ht
  | cons a as ih =>
    intro seen t ht
    rw [dedupeCatGo] at ht
    split at ht
    · exact List.mem_cons_of_mem a (ih seen t ht)
    · rcases List.mem_cons.mp ht with h | h
      · exact h ▸ List.mem_cons_self a as
      · exact List.mem_cons_of_mem a (ih (a.slug :: seen) t h)

theorem dedupeCatGo_props : ∀ (l : List Category) (seen : List String) (t : Category),
    t ∈ dedupeCatGo seen l → t.slug ≠ "" ∧ seen.contains t.slug = false := by
  intro l
  induction l with
  | nil =>
    intro seen t ht
    simp [dedupeCatGo] at ht
  | cons a as ih =>
    intro seen t ht
    rw [dedupeCatGo] at ht
    split at ht
    · exact ih seen t ht
    next hcond =>
      push_neg at hcond
      rcases List.mem_cons.mp ht with h | h
      · subst h
        refine ⟨hcond.1, ?_⟩
        cases hb : seen.contains t.slug with
        | false => rfl
        | true => exact absurd hb hcond.2
      · have h3 := ih (a.slug :: seen) t h
        refine ⟨h3.1, ?_⟩
        have hc := h3.2
        simp [List.contains_cons] at hc
        simpa using hc.2

theorem dedupeCatGo_pairwise : ∀ (l : List Category) (seen : List String),
    (dedupeCatGo seen l).Pairwise (fun a b => a.slug ≠ b.slug) := by
  intro l
  induction l with
  | nil =>
    intro seen
    simp [dedupeCatGo]
  | cons a as ih =>
    intro seen
    rw [dedupeCatGo]
    split
    · exact ih seen
    · refine List.Pairwise.cons ?_ (ih (a.slug :: seen))
      intro b hb he
      have hc := (dedupeCatGo_props as (a.slug :: seen) b hb).2
      rw [← he] at hc
      simp [List.contains_cons] at hc

theorem dedupeCatGo_eq_self : ∀ (l : List Category) (seen : List String),
    (∀ t ∈ l, t.slug ≠ "" ∧ seen.contains t.slug = false) →
    l.Pairwise (fun a b => a.slug ≠ b.slug) →
    dedupeCatGo seen l = l := by
  intro l
  induction l with
  | nil =>
    intro seen _ _
    rfl
  | cons a as ih =>
    intro seen hall hpw
    have ha := hall a (List.mem_cons_self a as)
    have hpw2 := List.pairwise_cons.mp hpw
    have hcond : ¬ (a.slug = "" ∨ seen.contains a.slug = true) := by
      rintro (h0 | h0)
      · exact ha.1 h0
      · rw [ha.2] at h0
        cases h0
    have hsub : ∀ t ∈ as, t.slug ≠ "" ∧ (a.slug :: seen).contains t.slug = false := by
      intro t ht
      have h3 := hall t (List.mem_cons_of_mem a ht)
      have hne : ¬ t.slug = a.slug := fun he => hpw2.1 t ht he.symm
      have h4 : t.slug ∉ seen := by simpa using h3.2
      refine ⟨h3.1, ?_⟩
      simp [List.contains_cons, hne, h4]
    rw [dedupeCatGo, if_neg hcond, ih (a.slug :: seen) hsub hpw2.2]

theorem migrateCategories_idem (cs : List Category) :
    migrateCategories (migrateCategories cs) = migrateCategories cs := by
  simp only [migrateCategories]
  set L1 := mapIdxFrom migrateCategory 0 cs with hL1
  set D1 := dedupeCatGo [] L1 with hD1
  have hmap : mapIdxFrom migrateCategory 0 D1 = D1 := by
    refine mapIdxFrom_eq_self migrateCategory D1 0 ?_
    intro i t ht
    have hprops := dedupeCatGo_props L1 [] t (hD1 ▸ ht)
    have hsub := dedupeCatGo_subset L1 [] t (hD1 ▸ ht)
    rcases mapIdxFrom_mem migrateCategory cs 0 t (hL1 ▸ hsub) with ⟨i0, x, _, hx⟩
    rw [hx]
    refine migrateCategory_fix i i0 x ?_
    rw [← hx]
    exact hprops.1
  rw [hmap]
  refine dedupeCatGo_eq_self D1 [] ?_ ?_
  · intro t ht
    have hprops := dedupeCatGo_props L1 [] t (hD1 ▸ ht)
    exact ⟨hprops.1, rfl⟩
  · rw [hD1]
    exact dedupeCatGo_pairwise L1 []


-- a state populated across several collections, for exercising the migrator.
def exC7St : St :=
  { exEmpty with
    comments := [exComment 4 none 0 "" 1 9 false, exComment 5 (some 4) 1 "" 1 9 false]
    tags := [{ id := 1, name := " My Tag ", slug := "", created_at := "" }]
    categories := [{ id := 1, name := "", slug := "", description := "", sort_order := 0 }] }

/-- C7: `migrateState` is a fixed point on its own output: re-running the
migrator (with any later timestamp) on an already-migrated state leaves every
collection, counter, and metadata field byte-identical. The first run's
timestamp must be nonempty, as `nowIso()` always is. -/
theorem c7_migrate_idempotent (s : St) (now1 now2 : String) (h : now1 ≠ "") :
    migrateState now2 (migrateState now1 s) = migrateState now1 s := by
  simp only [migrateState]
  rw [St.mk.injEq]
  refine ⟨rfl, rfl, ?_, ?_, ?_, ?_, ?_, ?_, ?_, ?_, ?_, ?_, ?_, ?_⟩
  · exact migrateUsers_idem h now2 s.users
  · exact migrateCategories_idem s.categories
  · exact migratePosts_idem h now2 s.posts
  · exact migrateLikes_idem h now2 s.likes
  · exact migrateComments_idem h now2 s.comments
  · exact migrateTags_idem h now2 s.tags
  · exact migratePostTags_idem s.post_tags
  · exact migrateBookmarks_idem h now2 s.bookmarks
  · exact migrateReactions_idem h now2 s.comment_reactions
  · exact migrateReports_idem h now2 s.reports
  · exact migrateActions_idem h now2 s.moderation_actions
  · exact orOS_idem s.search_index_meta

/-- C7 witness: a concrete second migrator run over a populated state is the
identity. -/
theorem c7_migrate_idempotent_witness :
    ("2024-01-01T00:00:00.000Z" : String) ≠ "" ∧
    migrateState "2025-06-30T12:00:00.000Z"
        (migrateState "2024-01-01T00:00:00.000Z" exC7St) =
      migrateState "2024-01-01T00:00:00.000Z" exC7St :=
  ⟨by decide, c7_migrate_idempotent exC7St "2024-01-01T00:00:00.000Z"
    "2025-06-30T12:00:00.000Z" (by decide)⟩

end VM
